import Mathlib

/-!
Shallow embedding of the video-platform upload/dedup core.

The Go source is embedded as pure Lean functions over an explicit system
state.  The durable metadata store (MySQL via GORM) is a record of row
lists, the blob store (local filesystem) is a list of published blobs plus
a list of scratch chunk files, and the coordination store (Redis) is a
list of tombstone entries plus a chunk-index accelerator set.  Operations
are sequential (the distributed locks in the source serialize operations
per (user, hash); the embedding executes the locked bodies atomically).

Source files referenced throughout:
  internal/db/models.go, db repo functions (CreateOrUpdateUserFileUploading,
  CreateUserFileForFastUpload, FinishMergeAndCreateMeta, DeleteUserFile,
  UpdateUserContentStatus), internal/store (LocalStore), internal redis
  package (tombstones, chunk set, DistributedLock), internal/logic
  (InitUpload, UploadChunk, MergeChunks, FastUpload, CancelUpload,
  DeleteFile, LoadTombstonesOnStartup) and internal/logic/download.go.
-/

namespace VideoPlatform

/-- `contents` table row (models.go `Content`): the logical upload
record, keyed by auto-increment id, one per (owner, sourceHash). -/
structure ContentRow where
  id : Nat
  ownerId : Int
  sourceHash : String
  title : String
  deriving DecidableEq, Repr

/-- `user_contents` table row (models.go `UserContent`): links a user to a
content with per-user filename, hash and status
(0 uploading, 1 completed, 2 transcoding, -1 cancelled). -/
structure UserContentRow where
  id : Nat
  userId : Int
  contentId : Nat
  fileName : String
  fileHash : String
  status : Int
  deriving DecidableEq, Repr

/-- `file_metas` table row (models.go `FileMeta`): the reference-counted
physical file record, primary key = content hash. -/
structure FileMetaRow where
  fileHash : String
  contentId : Nat
  filePath : String
  fileSize : Int
  refCount : Int
  deriving DecidableEq, Repr

/-- One staged chunk file `TempPath/{userId}/{hash}/{index}.part` of the
blob store scratch area. -/
structure ScratchChunk where
  userId : Int
  fileHash : String
  index : Int
  data : List Nat
  deriving DecidableEq, Repr

/-- Redis tombstone hash at `tombstone:{user}:{hash}`.  `ttl = none`
models a key without expiry; `ttl = some n` a key expiring after `n`
seconds. -/
structure TombstoneRow where
  userId : Int
  fileHash : String
  contentId : Nat
  status : String
  ttl : Option Nat
  deriving DecidableEq, Repr

/-- The whole system state: metadata store rows, blob store contents and
coordination store entries. -/
structure SysState where
  contents : List ContentRow
  userContents : List UserContentRow
  fileMetas : List FileMetaRow
  nextContentId : Nat
  nextUserContentId : Nat
  blobs : List (String × List Nat)
  scratch : List ScratchChunk
  tombstones : List TombstoneRow
  csChunks : List (Int × String × Int)
  deriving DecidableEq, Repr

/-- The empty initial state (fresh database, empty storage directories,
empty Redis). -/
def initState : SysState :=
  { contents := [], userContents := [], fileMetas := [],
    nextContentId := 1, nextUserContentId := 1,
    blobs := [], scratch := [], tombstones := [], csChunks := [] }

/-! ### Row lookup helpers (GORM `First` on an indexed where-clause;
rows are kept in insertion order, so `find?` returns the row with the
smallest primary key, as `First` does). -/

def findContentByOwnerHash (s : SysState) (fileHash : String) (u : Int) : Option ContentRow :=
  s.contents.find? (fun c => c.sourceHash == fileHash && c.ownerId == u)

def findContentById (s : SysState) (cid : Nat) (u : Int) : Option ContentRow :=
  s.contents.find? (fun c => c.id == cid && c.ownerId == u)

def findUserContent (s : SysState) (u : Int) (cid : Nat) : Option UserContentRow :=
  s.userContents.find? (fun r => r.userId == u && r.contentId == cid)

/-- db.GetUserContentByHash: first `user_contents` row with this user and
file hash. -/
def findUserContentByHash (s : SysState) (u : Int) (fileHash : String) : Option UserContentRow :=
  s.userContents.find? (fun r => r.userId == u && r.fileHash == fileHash)

/-- db.GetFileMeta: the `file_metas` row keyed by hash. -/
def findFileMeta (s : SysState) (fileHash : String) : Option FileMetaRow :=
  s.fileMetas.find? (fun fm => fm.fileHash == fileHash)

/-! ### db repo operations (part_001, package db) -/

/-- db.CreateOrUpdateUserFileUploading: find-or-create the `Content` keyed
by (sourceHash, ownerId); find-or-create the `UserContent(user, content)`,
resetting the status of an existing row to 0 (UPLOADING).  Returns the content
id. -/
def CreateOrUpdateUserFileUploading (u : Int) (fileName fileHash : String)
    (s : SysState) : SysState × Nat :=
  let found := findContentByOwnerHash s fileHash u
  let ct : ContentRow :=
    match found with
    | some c => c
    | none => { id := s.nextContentId, ownerId := u, sourceHash := fileHash, title := fileName }
  let s1 : SysState :=
    match found with
    | some _ => s
    | none => { s with contents := s.contents ++ [ct], nextContentId := s.nextContentId + 1 }
  match findUserContent s1 u ct.id with
  | some uc =>
      ({ s1 with userContents := (s1.userContents.map
          (fun r => if r.id == uc.id then { r with status := 0 } else r)) }, ct.id)
  | none =>
      ({ s1 with
          userContents := s1.userContents ++
            [{ id := s1.nextUserContentId, userId := u, contentId := ct.id,
               fileName := fileName, fileHash := fileHash, status := 0 }],
          nextUserContentId := s1.nextUserContentId + 1 }, ct.id)

/-- db.CreateUserFileForFastUpload: verify `Content(contentID)` is owned by
the caller (error otherwise); increment `ref_count` on the `file_metas`
row for the hash (an UPDATE that may match zero rows); find-or-create the
`UserContent(user, contentID)` with status 1 (the update branch sets
status and file name only, leaving the stored file hash untouched). -/
def CreateUserFileForFastUpload (u : Int) (cid : Nat) (fileName fileHash : String)
    (s : SysState) : Except String SysState :=
  match findContentById s cid u with
  | none => Except.error "record not found"
  | some _ =>
    let s1 : SysState := { s with fileMetas := (s.fileMetas.map
        (fun fm => if fm.fileHash == fileHash then { fm with refCount := fm.refCount + 1 } else fm)) }
    match findUserContent s1 u cid with
    | none =>
        Except.ok { s1 with
          userContents := s1.userContents ++
            [{ id := s1.nextUserContentId, userId := u, contentId := cid,
               fileName := fileName, fileHash := fileHash, status := 1 }],
          nextUserContentId := s1.nextUserContentId + 1 }
    | some uc =>
        Except.ok { s1 with userContents := (s1.userContents.map
          (fun r => if r.id == uc.id then { r with status := 1, fileName := fileName } else r)) }

/-- db.FinishMergeAndCreateMeta: row-lock the `file_metas` row for the
hash; insert it with refCount 1 if absent, else increment refCount; then
set the `UserContent(user, contentID)` rows to status 1 with this hash. -/
def FinishMergeAndCreateMeta (u : Int) (cid : Nat) (fileName fileHash filePath : String)
    (fileSize : Int) (s : SysState) : SysState :=
  let s1 : SysState :=
    match findFileMeta s fileHash with
    | none => { s with fileMetas := s.fileMetas ++
        [{ fileHash := fileHash, contentId := cid, filePath := filePath,
           fileSize := fileSize, refCount := 1 }] }
    | some _ => { s with fileMetas := (s.fileMetas.map
        (fun fm => if fm.fileHash == fileHash then { fm with refCount := fm.refCount + 1 } else fm)) }
  { s1 with userContents := (s1.userContents.map
      (fun r => if r.userId == u && r.contentId == cid
        then { r with status := 1, fileHash := fileHash } else r)) }

/-- Published blob path `BasePath/{hash}` (store.LocalStore.getFilePath). -/
def getFilePath (fileHash : String) : String := "files/" ++ fileHash

/-- db.DeleteUserFile: delete the `user_contents` rows of the caller for the
hash; if a `file_metas` row exists, decrement its refCount with
`GREATEST(ref_count - 1, 0)`, re-read, and when the result is ≤ 0 remove
the blob at the file path of the row (if nonempty) and delete the row. -/
def DeleteUserFile (u : Int) (fileHash : String) (s : SysState) : SysState :=
  let s1 : SysState := { s with userContents :=
      (s.userContents.filter (fun r => !(r.userId == u && r.fileHash == fileHash))) }
  match findFileMeta s1 fileHash with
  | none => s1
  | some _ =>
    let s2 : SysState := { s1 with fileMetas := (s1.fileMetas.map
        (fun fm => if fm.fileHash == fileHash
          then { fm with refCount := max (fm.refCount - 1) 0 } else fm)) }
    match findFileMeta s2 fileHash with
    | none => s2
    | some fm2 =>
      if fm2.refCount ≤ 0 then
        let s3 : SysState :=
          if fm2.filePath == "" then s2
          else { s2 with blobs := s2.blobs.filter (fun b => !(getFilePath b.1 == fm2.filePath)) }
        { s3 with fileMetas := s3.fileMetas.filter (fun fm => !(fm.fileHash == fileHash)) }
      else s2

/-- db.UpdateUserContentStatus: `UPDATE user_contents SET status = v WHERE
user_id = u AND content_id = cid AND status = 0`. -/
def UpdateUserContentStatus (u : Int) (cid : Nat) (status : Int) (s : SysState) : SysState :=
  { s with userContents := (s.userContents.map
      (fun r => if r.userId == u && r.contentId == cid && r.status == 0
        then { r with status := status } else r)) }

/-! ### Blob store operations (part_007, store.LocalStore) -/

/-- Insertion of an integer into a sorted list (ascending). -/
def insertSorted (x : Int) : List Int → List Int
  | [] => [x]
  | y :: ys => if x ≤ y then x :: y :: ys else y :: insertSorted x ys

/-- Ascending sort of chunk indices (Go sort.Ints). -/
def sortInts (l : List Int) : List Int := l.foldr insertSorted []

/-- store.GetUploadedChunks: chunk indices present in the scratch
directory for (user, hash), sorted ascending. -/
def GetUploadedChunks (s : SysState) (u : Int) (fileHash : String) : List Int :=
  sortInts ((s.scratch.filter
    (fun c => c.userId == u && c.fileHash == fileHash)).map (fun c => c.index))

/-- The staged bytes of chunk `i` for (user, hash), if present. -/
def lookupChunk (s : SysState) (u : Int) (fileHash : String) (i : Int) : Option (List Nat) :=
  (s.scratch.find?
    (fun c => c.userId == u && c.fileHash == fileHash && c.index == i)).map (fun c => c.data)

/-- store.WriteChunk: reject empty payloads; otherwise stage the bytes at
`{index}.part` (write-to-temp + rename, so an existing chunk file at the
same index is replaced whole). -/
def WriteChunk (u : Int) (fileHash : String) (index : Int) (data : List Nat)
    (s : SysState) : Except String SysState :=
  if data.isEmpty then Except.error "empty chunk data"
  else Except.ok { s with scratch :=
      (s.scratch.filter
        (fun c => !(c.userId == u && c.fileHash == fileHash && c.index == index))) ++
      [{ userId := u, fileHash := fileHash, index := index, data := data }] }

/-- store.CleanupChunks: recursive removal of the scratch directory for
(user, hash). -/
def CleanupChunks (u : Int) (fileHash : String) (s : SysState) : SysState :=
  { s with scratch := s.scratch.filter (fun c => !(c.userId == u && c.fileHash == fileHash)) }

/-- The concatenation loop of store.MergeChunks: bytes of chunks
`0..n-1` in ascending index order, or the first index whose chunk file
fails to open. -/
def collectChunks (s : SysState) (u : Int) (fileHash : String) : Nat → Except Int (List Nat)
  | 0 => Except.ok []
  | Nat.succ n =>
    match collectChunks s u fileHash n with
    | Except.error i => Except.error i
    | Except.ok acc =>
      match lookupChunk s u fileHash (Int.ofNat n) with
      | none => Except.error (Int.ofNat n)
      | some d => Except.ok (acc ++ d)

/-- store.MergeChunks: concatenate chunks `0..total-1` into
`base/{hash}.tmp`, atomically rename to `base/{hash}`, remove the scratch
directory and return the path and accumulated byte length.  On a chunk
open failure the temp file is removed and nothing is published. -/
def StoreMergeChunks (u : Int) (fileHash : String) (total : Int)
    (s : SysState) : Except Int (SysState × String × Int) :=
  match collectChunks s u fileHash total.toNat with
  | Except.error i => Except.error i
  | Except.ok bytes =>
    let s1 : SysState := { s with blobs :=
        (s.blobs.filter (fun b => !(b.1 == fileHash))) ++ [(fileHash, bytes)] }
    let s2 := CleanupChunks u fileHash s1
    Except.ok (s2, getFilePath fileHash, Int.ofNat bytes.length)

/-- store.DeleteFile: remove the published blob (missing blob
tolerated). -/
def StoreDeleteFile (fileHash : String) (s : SysState) : SysState :=
  { s with blobs := s.blobs.filter (fun b => !(b.1 == fileHash)) }

/-- store.FileExists. -/
def FileExists (s : SysState) (fileHash : String) : Bool :=
  (s.blobs.find? (fun b => b.1 == fileHash)).isSome

/-! ### Coordination store: tombstones and chunk accelerator (part_006,
package redis) -/

/-- redis.TombstoneTTL = 24h, in seconds. -/
def tombstoneTTL : Nat := 86400

def findTombstone (s : SysState) (u : Int) (fileHash : String) : Option TombstoneRow :=
  s.tombstones.find? (fun t => t.userId == u && t.fileHash == fileHash)

def eraseTombstone (u : Int) (fileHash : String) (l : List TombstoneRow) : List TombstoneRow :=
  l.filter (fun t => !(t.userId == u && t.fileHash == fileHash))

/-- redis.CreateTombstone: HSet of the tombstone hash followed by an
unconditional Expire with the 24h TTL — every entry written through this
function carries the TTL, whatever its status. -/
def CreateTombstone (u : Int) (fileHash : String) (cid : Nat) (status : String)
    (s : SysState) : SysState :=
  { s with tombstones := eraseTombstone u fileHash s.tombstones ++
      [{ userId := u, fileHash := fileHash, contentId := cid, status := status,
         ttl := some tombstoneTTL }] }

/-- redis.CreateTombstoneNoExpire: HSet only.  A fresh key has no expiry;
HSet on an existing key leaves its TTL untouched. -/
def CreateTombstoneNoExpire (u : Int) (fileHash : String) (cid : Nat) (status : String)
    (s : SysState) : SysState :=
  let oldTtl : Option Nat :=
    match findTombstone s u fileHash with
    | some t => t.ttl
    | none => none
  { s with tombstones := eraseTombstone u fileHash s.tombstones ++
      [{ userId := u, fileHash := fileHash, contentId := cid, status := status,
         ttl := oldTtl }] }

/-- redis.CheckTombstone: key existence plus the `status` field. -/
def CheckTombstone (s : SysState) (u : Int) (fileHash : String) : Option String :=
  (findTombstone s u fileHash).map (fun t => t.status)

/-- redis.DeleteTombstone. -/
def DeleteTombstone (u : Int) (fileHash : String) (s : SysState) : SysState :=
  { s with tombstones := eraseTombstone u fileHash s.tombstones }

/-- redis.GetTombstoneContentID: the `content_id` field of the tombstone,
error (none) when the key is missing. -/
def GetTombstoneContentID (s : SysState) (u : Int) (fileHash : String) : Option Nat :=
  (findTombstone s u fileHash).map (fun t => t.contentId)

/-- redis.RecordUploadedChunk: SAdd on the accelerator set (advisory). -/
def RecordUploadedChunk (u : Int) (fileHash : String) (index : Int) (s : SysState) : SysState :=
  if s.csChunks.contains (u, fileHash, index) then s
  else { s with csChunks := s.csChunks ++ [(u, fileHash, index)] }

/-- redis.ClearUploadedChunks: Del of the accelerator set. -/
def ClearUploadedChunks (u : Int) (fileHash : String) (s : SysState) : SysState :=
  { s with csChunks := (s.csChunks.filter
      (fun c => !(c.1 == u && c.2.1 == fileHash))) }

/-! ### Distributed lock (part_006, redis.DistributedLock).  The lock
key-value store is modelled separately from `SysState`: lock keys live in
their own namespace (`lock:*`) and none of the logic-layer claims depend
on them. -/

inductive LockError
  | lockNotHeld
  | lockFailed
  | lockTimeout
  deriving DecidableEq, Repr

/-- redis.DistributedLock: key, owner token, TTL and polling policy. -/
structure DistributedLock where
  key : String
  value : String
  ttl : Nat
  retryDelayMs : Nat
  maxRetries : Nat
  deriving DecidableEq, Repr

/-- redis.NewLock: prefixes the key with `lock:`, draws a fresh owner
token (passed explicitly here), 50 ms retry delay, 100 retries. -/
def NewLock (key : String) (ttl : Nat) (token : String) : DistributedLock :=
  { key := "lock:" ++ key, value := token, ttl := ttl,
    retryDelayMs := 50, maxRetries := 100 }

/-- The Redis string keyspace holding lock keys. -/
def LockStore := List (String × String)

def lookupLock (st : List (String × String)) (k : String) : Option String :=
  (st.find? (fun e => e.1 == k)).map (fun e => e.2)

/-- redis.DistributedLock.TryLock: SetNX — set the key to the owner token
iff it is absent. -/
def TryLock (l : DistributedLock) (st : List (String × String)) :
    List (String × String) × Bool :=
  match lookupLock st l.key with
  | some _ => (st, false)
  | none => ((l.key, l.value) :: st, true)

/-- redis.DistributedLock.Unlock: the atomic Lua compare-and-delete — the
key is deleted iff its current value equals the owner token, otherwise
nothing changes and ErrLockNotHeld is reported. -/
def Unlock (l : DistributedLock) (st : List (String × String)) :
    List (String × String) × Except LockError Unit :=
  if lookupLock st l.key == some l.value then
    (st.filter (fun e => !(e.1 == l.key)), Except.ok ())
  else
    (st, Except.error LockError.lockNotHeld)

/-- The polling loop of redis.DistributedLock.Lock.  `cancelled i` models
the context of the caller being done when attempt `i` starts (the `select` on
ctx.Done); the store is static across the poll (sequential embedding —
no other writer runs between attempts). -/
def lockAttempts (l : DistributedLock) (cancelled : Nat → Bool)
    (st : List (String × String)) : Nat → Nat → List (String × String) × Except LockError Unit
  | 0, _ => (st, Except.error LockError.lockFailed)
  | Nat.succ fuel, i =>
    if cancelled i then (st, Except.error LockError.lockTimeout)
    else
      match TryLock l st with
      | (st1, true) => (st1, Except.ok ())
      | (_, false) => lockAttempts l cancelled st fuel (i + 1)

/-- redis.DistributedLock.Lock: up to `maxRetries` TryLock attempts with
`retryDelayMs` backoff, aborting with ErrLockTimeout when the context of the caller
is done, and failing with ErrLockFailed on exhaustion. -/
def Lock (l : DistributedLock) (cancelled : Nat → Bool)
    (st : List (String × String)) : List (String × String) × Except LockError Unit :=
  lockAttempts l cancelled st l.maxRetries 0

/-! ### Upload coordinator (internal/logic, upload logic in startup.go) -/

/-- logic.findMissingChunks: indices `0 ≤ i < total` absent from the
uploaded list (built in the source via a membership map and an ascending
loop). -/
def findMissingChunks (uploaded : List Int) (total : Int) : List Int :=
  ((List.range total.toNat).map (fun n => (Int.ofNat n))).filter
    (fun i => !(uploaded.contains i))

/-- Result of logic.InitUpload. -/
structure InitUploadResult where
  contentId : Nat
  status : String
  uploadedChunks : List Int
  deriving DecidableEq, Repr

/-- Steps 3-5 of logic.InitUpload: take the init lock, run
db.CreateOrUpdateUserFileUploading, then list uploaded chunks from the
filesystem (authoritative) and answer `new` or `resumable`. -/
def initUploadMain (u : Int) (fileName fileHash : String) (s : SysState) :
    SysState × InitUploadResult :=
  let p := CreateOrUpdateUserFileUploading u fileName fileHash s
  let uploadedChunks := GetUploadedChunks p.1 u fileHash
  let st := if uploadedChunks.isEmpty then "new" else "resumable"
  (p.1, { contentId := p.2, status := st, uploadedChunks := uploadedChunks })

/-- logic.InitUpload: tombstone fast-upload check (deleting a stale
completed tombstone whose blob is gone, or a cancelled tombstone), then —
only when no tombstone existed — the database double-check that repairs
the coordination store, then the locked init path. -/
def InitUpload (u : Int) (fileName fileHash : String) (s : SysState) :
    SysState × InitUploadResult :=
  match findTombstone s u fileHash with
  | some ts =>
    if ts.status == "completed" then
      match GetTombstoneContentID s u fileHash with
      | some cid =>
        if 0 < cid then
          if FileExists s fileHash then
            (s, { contentId := cid, status := "fast_upload", uploadedChunks := [] })
          else
            initUploadMain u fileName fileHash (DeleteTombstone u fileHash s)
        else initUploadMain u fileName fileHash s
      | none => initUploadMain u fileName fileHash s
    else if ts.status == "cancelled" then
      initUploadMain u fileName fileHash (DeleteTombstone u fileHash s)
    else initUploadMain u fileName fileHash s
  | none =>
    match findUserContentByHash s u fileHash with
    | some uc =>
      if uc.status == 1 then
        (match findFileMeta s fileHash with
        | some fm =>
          if fm.filePath == "" then initUploadMain u fileName fileHash s
          else if FileExists s fileHash then
            (CreateTombstoneNoExpire u fileHash uc.contentId "completed" s,
             { contentId := uc.contentId, status := "fast_upload", uploadedChunks := [] })
          else initUploadMain u fileName fileHash s
        | none => initUploadMain u fileName fileHash s)
      else initUploadMain u fileName fileHash s
    | none => initUploadMain u fileName fileHash s

/-- Outcome of logic.UploadChunk, as distinguished by the handler. -/
inductive ChunkUploadResult
  | uploaded
  | alreadyCompleted
  | cancelled
  | chunkExists
  | writeFailed
  deriving DecidableEq, Repr

/-- logic.CheckBeforeUploadChunk: a completed tombstone rejects the chunk
with ErrUploadAlreadyCompleted, a cancelled one with ErrUploadCancelled. -/
def CheckBeforeUploadChunk (s : SysState) (u : Int) (fileHash : String) :
    Option ChunkUploadResult :=
  match CheckTombstone s u fileHash with
  | some st =>
    if st == "completed" then some ChunkUploadResult.alreadyCompleted
    else if st == "cancelled" then some ChunkUploadResult.cancelled
    else none
  | none => none

/-- logic.UploadChunk: tombstone check; filesystem idempotence check
(ErrChunkAlreadyUploaded when the index is already present); stage the
chunk; record the index in the advisory accelerator set. -/
def UploadChunk (u : Int) (fileHash : String) (cid : Nat) (chunkIndex : Int)
    (totalChunks : Int) (data : List Nat) (s : SysState) : SysState × ChunkUploadResult :=
  match CheckBeforeUploadChunk s u fileHash with
  | some e => (s, e)
  | none =>
    let existingChunks := GetUploadedChunks s u fileHash
    if existingChunks.contains chunkIndex then (s, ChunkUploadResult.chunkExists)
    else
      match WriteChunk u fileHash chunkIndex data s with
      | Except.error _ => (s, ChunkUploadResult.writeFailed)
      | Except.ok s1 => (RecordUploadedChunk u fileHash chunkIndex s1, ChunkUploadResult.uploaded)

/-- The HTTP surface of the chunk handler (part_002 UploadChunk): status
code and `status` field of the JSON body (error bodies carry no status
field; mapped to "error" here). -/
def uploadChunkHTTP : ChunkUploadResult → Nat × String
  | ChunkUploadResult.uploaded => (200, "chunk_uploaded")
  | ChunkUploadResult.alreadyCompleted => (409, "error")
  | ChunkUploadResult.cancelled => (410, "error")
  | ChunkUploadResult.chunkExists => (200, "chunk_exists")
  | ChunkUploadResult.writeFailed => (500, "error")

/-- Failure modes of logic.MergeChunks. -/
inductive MergeError
  | missingChunks (missing : List Int)
  | storeMergeFailed (chunkIndex : Int)
  deriving DecidableEq, Repr

/-- logic.MergeChunks: under the merge lock, enumerate chunks from the
filesystem; when the count differs from totalChunks fail with the missing
set; otherwise run the blob-store merge, record the metadata
(db.FinishMergeAndCreateMeta), clear the accelerator set and write a
`completed` tombstone via redis.CreateTombstone. -/
def MergeChunks (u : Int) (cid : Nat) (fileName fileHash : String)
    (totalChunks : Int) (fileSize : Int) (s : SysState) :
    SysState × Except MergeError (String × Int) :=
  let uploadedChunks := GetUploadedChunks s u fileHash
  if (Int.ofNat uploadedChunks.length) ≠ totalChunks then
    (s, Except.error (MergeError.missingChunks (findMissingChunks uploadedChunks totalChunks)))
  else
    match StoreMergeChunks u fileHash totalChunks s with
    | Except.error i => (s, Except.error (MergeError.storeMergeFailed i))
    | Except.ok (s1, filePath, sz) =>
      let s2 := FinishMergeAndCreateMeta u cid fileName fileHash filePath sz s1
      let s3 := ClearUploadedChunks u fileHash s2
      let s4 := CreateTombstone u fileHash cid "completed" s3
      (s4, Except.ok (filePath, sz))

/-- logic.FastUpload: under the fast lock, db.CreateUserFileForFastUpload
then a `completed` tombstone via redis.CreateTombstone. -/
def FastUpload (u : Int) (cid : Nat) (fileName fileHash : String) (s : SysState) :
    SysState × Except String Unit :=
  match CreateUserFileForFastUpload u cid fileName fileHash s with
  | Except.error e => (s, Except.error e)
  | Except.ok s1 => (CreateTombstone u fileHash cid "completed" s1, Except.ok ())

/-- logic.CancelUpload: under the cancel lock, set the UPLOADING row to
CANCELLED (db.UpdateUserContentStatus with the status = 0 guard), remove
the scratch chunks and write a `cancelled` tombstone. -/
def CancelUpload (u : Int) (fileHash : String) (cid : Nat) (s : SysState) : SysState :=
  let s1 := UpdateUserContentStatus u cid (-1) s
  let s2 := CleanupChunks u fileHash s1
  CreateTombstone u fileHash cid "cancelled" s2

/-- logic.DeleteFile: under the delete lock, db.DeleteUserFile then
delete the tombstone. -/
def DeleteFile (u : Int) (fileHash : String) (s : SysState) : SysState :=
  DeleteTombstone u fileHash (DeleteUserFile u fileHash s)

/-! ### Startup reconciler (LoadTombstonesOnStartup in startup.go and
redis.LoadTombstonesFromDB) -/

/-- A row of db.GetCompletedUploadsForTombstone. -/
structure UploadRow where
  userId : Int
  fileHash : String
  contentId : Nat
  status : Int
  deriving DecidableEq, Repr

/-- db.GetCompletedUploadsForTombstone: all `user_contents` rows with a
nonempty file hash. -/
def GetCompletedUploadsForTombstone (s : SysState) : List UploadRow :=
  (s.userContents.filter (fun uc => !(uc.fileHash == ""))).map
    (fun uc => { userId := uc.userId, fileHash := uc.fileHash,
                 contentId := uc.contentId, status := uc.status })

/-- db.GetFileMetaHashes: the set of hashes present in `file_metas`. -/
def GetFileMetaHashes (s : SysState) : List String :=
  s.fileMetas.map (fun fm => fm.fileHash)

/-- Tombstone data produced by the startup loop (before the pipeline
assigns TTLs): status 1 becomes `completed` only when the hash is backed
by a `file_metas` row (skipped otherwise); status -1 and status 0 both
become `cancelled`; any other status is skipped. -/
def buildStartupStatus (existingFiles : List String) (u : UploadRow) : Option String :=
  if u.status == 1 then
    (if existingFiles.contains u.fileHash then some "completed" else none)
  else if u.status == -1 then some "cancelled"
  else if u.status == 0 then some "cancelled"
  else none

/-- The building loop of logic.LoadTombstonesOnStartup step 3: walk the
upload rows in order, skipping the rows `buildStartupStatus` rejects. -/
def buildStartupLoop (existingFiles : List String) : List UploadRow → List (UploadRow × String)
  | [] => []
  | u :: rest =>
    match buildStartupStatus existingFiles u with
    | some st => (u, st) :: buildStartupLoop existingFiles rest
    | none => buildStartupLoop existingFiles rest

/-- The tombstone batch built by logic.LoadTombstonesOnStartup steps 1-3. -/
def BuildStartupTombstones (s : SysState) : List (UploadRow × String) :=
  buildStartupLoop (GetFileMetaHashes s) (GetCompletedUploadsForTombstone s)

/-- redis.LoadTombstonesFromDB: pipelined HSet for every entry, plus an
Expire with the 24h TTL for `cancelled` entries only. -/
def LoadTombstonesFromDB (batch : List (UploadRow × String)) : List TombstoneRow :=
  batch.map (fun p =>
    { userId := p.1.userId, fileHash := p.1.fileHash, contentId := p.1.contentId,
      status := p.2,
      ttl := if p.2 == "cancelled" then some tombstoneTTL else none })

/-- logic.LoadTombstonesOnStartup: the tombstone entries published to the
coordination store at boot. -/
def LoadTombstonesOnStartup (s : SysState) : List TombstoneRow :=
  LoadTombstonesFromDB (BuildStartupTombstones s)

/-! ### Download serializer (internal/logic/download.go) -/

/-- Digit-string accumulator of strconv.ParseInt (base 10). -/
def parseDigitsAux (acc : Nat) : List Char → Option Nat
  | [] => some acc
  | c :: cs => if c.isDigit then parseDigitsAux (acc * 10 + (c.toNat - 48)) cs else none

/-- strconv.ParseInt(s, 10, 64): optional sign, one or more digits,
64-bit range check. -/
def goParseInt (str : String) : Option Int :=
  match str.data with
  | [] => none
  | c :: cs =>
    let sign : Int := if c == '-' then -1 else 1
    let digits : List Char := if c == '-' || c == '+' then cs else c :: cs
    match digits with
    | [] => none
    | _ =>
      match parseDigitsAux 0 digits with
      | none => none
      | some n =>
        let v : Int := sign * (Int.ofNat n)
        if v < -(2 ^ 63) || 2 ^ 63 - 1 < v then none else some v

/-- The three accepted forms of download.go parseRangeHeader:
`bytes=-suffix`, `bytes=start-` and `bytes=start-end`. -/
def parseRangeForms (p0 p1 : String) (fileSize : Int) : Except String (Int × Int) :=
  if p0 == "" then
    match goParseInt p1 with
    | some suffix => Except.ok (fileSize - suffix, fileSize - 1)
    | none => Except.error "invalid range suffix"
  else if p1 == "" then
    match goParseInt p0 with
    | some st => Except.ok (st, fileSize - 1)
    | none => Except.error "invalid range start"
  else
    match goParseInt p0, goParseInt p1 with
    | some st, some en => Except.ok (st, en)
    | none, _ => Except.error "invalid range start"
    | some _, none => Except.error "invalid range end"

/-- The clamp-and-check epilogue of parseRangeHeader (download.go lines
116-126): floor the start at 0, cap the end at fileSize - 1, reject when
the clamped start exceeds the clamped end. -/
def clampRange (fileSize : Int) : Except String (Int × Int) → Except String (Int × Int)
  | Except.error e => Except.error e
  | Except.ok (st, en) =>
    let st2 := if st < 0 then 0 else st
    let en2 := if fileSize ≤ en then fileSize - 1 else en
    if en2 < st2 then Except.error "invalid range: start > end" else Except.ok (st2, en2)

/-- Character-list prefix test (strings.HasPrefix). -/
def hasPrefixList : List Char → List Char → Bool
  | [], _ => true
  | _ :: _, [] => false
  | p :: ps, c :: cs => p == c && hasPrefixList ps cs

/-- strings.HasPrefix(s, pre). -/
def goHasPrefix (s pre : String) : Bool := hasPrefixList pre.data s.data

/-- The splitting loop of strings.Split for a one-character separator. -/
def splitOnCharAux (sep : Char) (acc : List Char) : List Char → List (List Char)
  | [] => [acc.reverse]
  | c :: cs =>
    if c == sep then acc.reverse :: splitOnCharAux sep [] cs
    else splitOnCharAux sep (c :: acc) cs

/-- strings.Split(s, sep) for a one-character separator: every maximal
separator-free segment, empty segments included. -/
def goSplitChar (s : String) (sep : Char) : List String :=
  (splitOnCharAux sep [] s.data).map (fun l => String.mk l)

/-- download.go parseRangeHeader: require the `bytes=` prefix, strip it
(six bytes), split the spec on `-` into exactly two parts, parse one of
the three forms, then clamp and validate. -/
def parseRangeHeader (rangeHeader : String) (fileSize : Int) : Except String (Int × Int) :=
  if goHasPrefix rangeHeader "bytes=" then
    match goSplitChar (String.mk (rangeHeader.data.drop 6)) (Char.ofNat 45) with
    | [p0, p1] => clampRange fileSize (parseRangeForms p0 p1 fileSize)
    | _ => Except.error "invalid range format"
  else Except.error "invalid range format"

/-- store.GetFileRange on the bytes of a published blob: seek to `start`
and read `end - start + 1` bytes (io.LimitReader). -/
def GetFileRangeBytes (file : List Nat) (start endPos : Int) : List Nat :=
  (file.drop start.toNat).take (endPos - start + 1).toNat

/-! ### Operation traces and the dedup/refcount invariant -/

/-- One call against the upload coordinator (the operations named by the
dedup refcount property, plus the chunk uploads that feed `merge`). -/
inductive Op
  | opInit (u : Int) (fileName fileHash : String)
  | opChunk (u : Int) (fileHash : String) (cid : Nat) (index totalChunks : Int) (data : List Nat)
  | opMerge (u : Int) (cid : Nat) (fileName fileHash : String) (totalChunks fileSize : Int)
  | opFast (u : Int) (cid : Nat) (fileName fileHash : String)
  | opDelete (u : Int) (fileHash : String)
  deriving DecidableEq, Repr

/-- The state transition of one operation (result discarded). -/
def step (s : SysState) : Op → SysState
  | Op.opInit u fileName fileHash => (InitUpload u fileName fileHash s).1
  | Op.opChunk u fileHash cid index total data => (UploadChunk u fileHash cid index total data s).1
  | Op.opMerge u cid fileName fileHash total fileSize =>
      (MergeChunks u cid fileName fileHash total fileSize s).1
  | Op.opFast u cid fileName fileHash => (FastUpload u cid fileName fileHash s).1
  | Op.opDelete u fileHash => DeleteFile u fileHash s

/-- Run a sequence of operations. -/
def runOps (s : SysState) : List Op → SysState
  | [] => s
  | op :: ops => runOps (step s op) ops

/-- Number of `user_contents` rows with this hash in status COMPLETED. -/
def completedCount (s : SysState) (fileHash : String) : Nat :=
  s.userContents.countP (fun r => r.fileHash == fileHash && r.status == 1)

/-- The refCount recorded for a hash (0 when no `file_metas` row exists). -/
def refCountOf (s : SysState) (fileHash : String) : Int :=
  match findFileMeta s fileHash with
  | some fm => fm.refCount
  | none => 0

/-- The dedup refcount property at one hash: `FileMeta(h).refCount`
equals the number of COMPLETED `user_contents` rows carrying `h`, and the
blob for `h` exists iff that count is positive. -/
def dedupInvariant (s : SysState) (fileHash : String) : Prop :=
  refCountOf s fileHash = Int.ofNat (completedCount s fileHash) ∧
  (FileExists s fileHash = true ↔ 0 < completedCount s fileHash)

/-- Discipline under which the dedup refcount invariant is provable:
`merge` and `fastUpload` must pass the content id that `init` created for
this `(user, hash)` pair while the matching `user_contents` row exists
and is not yet COMPLETED, `fastUpload` additionally requires the
`file_metas` row for the hash to exist, and `delete` requires the
own row of the caller for the hash to be COMPLETED whenever a `file_metas`
row exists.  `init` and chunk uploads are unrestricted. -/
def wfOp (s : SysState) : Op → Bool
  | Op.opInit _ _ _ => true
  | Op.opChunk _ _ _ _ _ _ => true
  | Op.opMerge u cid _ fileHash _ _ =>
    (match findContentByOwnerHash s fileHash u with
     | some ct => cid == ct.id &&
        (match findUserContent s u ct.id with
         | some uc => !(uc.status == 1)
         | none => false)
     | none => false)
  | Op.opFast u cid _ fileHash =>
    (match findContentByOwnerHash s fileHash u with
     | some ct => cid == ct.id &&
        (match findUserContent s u ct.id with
         | some uc => !(uc.status == 1)
         | none => false)
     | none => false) && (findFileMeta s fileHash).isSome
  | Op.opDelete u fileHash =>
    (match findFileMeta s fileHash with
     | some _ =>
        (match findUserContentByHash s u fileHash with
         | some uc => uc.status == 1
         | none => false)
     | none => true)

/-- A trace is well-formed when every operation is well-formed in the
state it executes in. -/
def wfTrace (s : SysState) : List Op → Bool
  | [] => true
  | op :: ops => wfOp s op && wfTrace (step s op) ops

/-- The inductive invariant of the restricted machine.  It entails
`dedupInvariant` at every hash and is preserved by every well-formed
operation. -/
def Inv (s : SysState) : Prop :=
  (∀ fm ∈ s.fileMetas,
      fm.refCount = Int.ofNat (completedCount s fm.fileHash) ∧
      1 ≤ fm.refCount ∧ fm.filePath = getFilePath fm.fileHash) ∧
  (∀ uc ∈ s.userContents, uc.status = 1 → (findFileMeta s uc.fileHash).isSome = true) ∧
  (∀ b ∈ s.blobs, (findFileMeta s b.1).isSome = true) ∧
  (∀ fm ∈ s.fileMetas, FileExists s fm.fileHash = true) ∧
  List.Pairwise (fun a b => a.fileHash ≠ b.fileHash) s.fileMetas ∧
  (List.Pairwise (fun a b => a.id ≠ b.id) s.contents ∧
   List.Pairwise (fun a b => ¬(a.ownerId = b.ownerId ∧ a.sourceHash = b.sourceHash)) s.contents ∧
   (∀ ct ∈ s.contents, 1 ≤ ct.id ∧ ct.id < s.nextContentId) ∧
   1 ≤ s.nextContentId) ∧
  (List.Pairwise (fun a b => a.id ≠ b.id) s.userContents ∧
   List.Pairwise (fun a b => ¬(a.userId = b.userId ∧ a.contentId = b.contentId)) s.userContents ∧
   ∀ uc ∈ s.userContents, uc.id < s.nextUserContentId ∧
     ∃ ct ∈ s.contents, ct.id = uc.contentId ∧ ct.ownerId = uc.userId ∧
       ct.sourceHash = uc.fileHash) ∧
  (∀ uc ∈ s.userContents, uc.status = 0 ∨ uc.status = 1) ∧
  (∀ ts ∈ s.tombstones, ts.status = "completed" ∧ FileExists s ts.fileHash = true ∧
     1 ≤ ts.contentId ∧
     ∃ uc ∈ s.userContents, uc.userId = ts.userId ∧ uc.fileHash = ts.fileHash ∧ uc.status = 1)

instance (s : SysState) (fileHash : String) : Decidable (dedupInvariant s fileHash) := by
  unfold dedupInvariant; infer_instance

instance (s : SysState) : Decidable (Inv s) := by
  unfold Inv; infer_instance

instance {e a : Type} [DecidableEq e] [DecidableEq a] : DecidableEq (Except e a) := fun x y =>
  match x, y with
  | Except.error e1, Except.error e2 =>
    if h : e1 = e2 then Decidable.isTrue (by rw [h])
    else Decidable.isFalse (fun hc => h (Except.error.inj hc))
  | Except.error _, Except.ok _ => Decidable.isFalse (fun hc => Except.noConfusion hc)
  | Except.ok _, Except.error _ => Decidable.isFalse (fun hc => Except.noConfusion hc)
  | Except.ok a1, Except.ok a2 =>
    if h : a1 = a2 then Decidable.isTrue (by rw [h])
    else Decidable.isFalse (fun hc => h (Except.ok.inj hc))

/-! ### Concrete fixture states used by witnesses and counterexamples -/

/-- State after user 1 uploaded and merged hash "h" (three chunks), as
produced by the cold-upload scenario. -/
def wAfterUpload : SysState :=
  { contents := [{ id := 1, ownerId := 1, sourceHash := "h", title := "a.mp4" }],
    userContents := [{ id := 1, userId := 1, contentId := 1, fileName := "a.mp4",
                       fileHash := "h", status := 1 }],
    fileMetas := [{ fileHash := "h", contentId := 1, filePath := "files/h",
                    fileSize := 3, refCount := 1 }],
    nextContentId := 2, nextUserContentId := 2,
    blobs := [("h", [10, 20, 30])], scratch := [],
    tombstones := [{ userId := 1, fileHash := "h", contentId := 1,
                     status := "completed", ttl := some tombstoneTTL }],
    csChunks := [] }

/-- A mixed-status metadata store used by cancel/startup witnesses. -/
def wMixed : SysState :=
  { initState with
    userContents :=
      [{ id := 1, userId := 1, contentId := 1, fileName := "a", fileHash := "h1", status := 1 },
       { id := 2, userId := 2, contentId := 2, fileName := "b", fileHash := "h2", status := 0 },
       { id := 3, userId := 3, contentId := 3, fileName := "c", fileHash := "h3", status := -1 },
       { id := 4, userId := 4, contentId := 4, fileName := "d", fileHash := "h4", status := 1 },
       { id := 5, userId := 5, contentId := 5, fileName := "e", fileHash := "", status := 1 },
       { id := 6, userId := 6, contentId := 6, fileName := "f", fileHash := "h6", status := 2 }],
    fileMetas := [{ fileHash := "h1", contentId := 1, filePath := "files/h1",
                    fileSize := 1, refCount := 1 }] }

/-- Scratch area holding chunks 0, 1 and 3 (no chunk 2) for user 1. -/
def wGappyScratch : SysState :=
  { initState with scratch :=
      [{ userId := 1, fileHash := "h", index := 0, data := [1] },
       { userId := 1, fileHash := "h", index := 1, data := [2] },
       { userId := 1, fileHash := "h", index := 3, data := [4] }] }

/-- A well-formed multi-user trace: user 1 uploads hash "h", user 2
dedups onto it by merging the same hash, then user 1 deletes. -/
def wTrace : List Op :=
  [Op.opInit 1 "a.mp4" "h",
   Op.opChunk 1 "h" 1 0 3 [10], Op.opChunk 1 "h" 1 1 3 [20], Op.opChunk 1 "h" 1 2 3 [30],
   Op.opMerge 1 1 "a.mp4" "h" 3 3,
   Op.opInit 2 "b.mp4" "h",
   Op.opChunk 2 "h" 2 0 1 [9],
   Op.opMerge 2 2 "b.mp4" "h" 1 1,
   Op.opDelete 1 "h"]

/-! ### General list toolkit -/

theorem map_if_id {α : Type} (q : α → Bool) (f : α → α) (l : List α)
    (h : ∀ r ∈ l, q r = false) :
    (l.map (fun r => if q r then f r else r)) = l := by
  induction l with
  | nil => rfl
  | cons x xs ih =>
    simp only [List.map_cons, h x (List.mem_cons_self x xs), Bool.false_eq_true, if_false,
      List.cons.injEq, true_and]
    exact ih (fun r hr => h r (List.mem_cons_of_mem x hr))

theorem find?_map_pred {α : Type} (p : α → Bool) (g : α → α) (l : List α)
    (hpres : ∀ a ∈ l, p (g a) = p a) :
    (l.map g).find? p = (l.find? p).map g := by
  induction l with
  | nil => rfl
  | cons x xs ih =>
    simp only [List.map_cons, List.find?]
    rw [hpres x (List.mem_cons_self x xs)]
    cases hx : p x with
    | true => rfl
    | false => exact ih (fun a ha => hpres a (List.mem_cons_of_mem x ha))

/-! ### C8: cancel flips only UPLOADING rows -/

/-- C8.  cancel(user, fileHash, contentId) sets the status of
UserContent(user, contentId) to CANCELLED only when its current status is
UPLOADING (0); a row in any other status — COMPLETED, TRANSCODING or
already CANCELLED — is left entirely unchanged by cancel. -/
theorem cancel_only_flips_uploading (u : Int) (fileHash : String) (cid : Nat) (s : SysState) :
    (CancelUpload u fileHash cid s).userContents.length = s.userContents.length ∧
    ∀ i : Nat, ∀ r : UserContentRow, s.userContents[i]? = some r →
      (CancelUpload u fileHash cid s).userContents[i]? =
        some (if r.userId = u ∧ r.contentId = cid ∧ r.status = 0
              then { r with status := -1 } else r) := by
  constructor
  · simp [CancelUpload, CreateTombstone, CleanupChunks, UpdateUserContentStatus]
  · intro i r hr
    simp only [CancelUpload, CreateTombstone, CleanupChunks, UpdateUserContentStatus,
      List.getElem?_map, hr, Option.map_some']
    by_cases hc : r.userId = u ∧ r.contentId = cid ∧ r.status = 0
    · obtain ⟨h1, h2, h3⟩ := hc
      simp [h1, h2, h3]
    · rw [if_neg hc]
      have hb : (r.userId == u && r.contentId == cid && r.status == 0) = false := by
        rw [Bool.eq_false_iff]
        intro hb
        simp only [Bool.and_eq_true, beq_iff_eq] at hb
        exact hc ⟨hb.1.1, hb.1.2, hb.2⟩
      simp [hb]

/-- C8 witness: in the mixed state, cancel(2, "h2", 2) flips the
UPLOADING row of user 2 while the COMPLETED row of user 1 survives a
cancel(1, "h1", 1) untouched. -/
theorem cancel_only_flips_uploading_witness :
    (CancelUpload 2 "h2" 2 wMixed).userContents[1]? =
      some { id := 2, userId := 2, contentId := 2, fileName := "b", fileHash := "h2", status := -1 } ∧
    (CancelUpload 1 "h1" 1 wMixed).userContents[0]? =
      some { id := 1, userId := 1, contentId := 1, fileName := "a", fileHash := "h1", status := 1 } := by
  constructor
  · have h := (cancel_only_flips_uploading 2 "h2" 2 wMixed).2 1
      { id := 2, userId := 2, contentId := 2, fileName := "b", fileHash := "h2", status := 0 }
      (by decide)
    simpa using h
  · have h := (cancel_only_flips_uploading 1 "h1" 1 wMixed).2 0
      { id := 1, userId := 1, contentId := 1, fileName := "a", fileHash := "h1", status := 1 }
      (by decide)
    simpa using h

/-! ### C2: tombstone TTL assignment -/

/-- C2 divergence.  The completed tombstones written by merge and by
fastUpload carry the 24-hour TTL (redis.CreateTombstone runs Expire
unconditionally), contradicting the no-TTL specification for completed
tombstones; only the init repair path (CreateTombstoneNoExpire) and the
startup loader publish completed tombstones without TTL, and cancelled
tombstones do carry the TTL as specified.  Evaluated: a merge by user 1,
a fastUpload by user 2, the init repair path for user 1, and a cancel. -/
theorem completed_tombstone_ttl_divergence :
    (MergeChunks 1 1 "a.mp4" "h" 3 3
        (runOps initState
          [Op.opInit 1 "a.mp4" "h", Op.opChunk 1 "h" 1 0 3 [10],
           Op.opChunk 1 "h" 1 1 3 [20], Op.opChunk 1 "h" 1 2 3 [30]])).1.tombstones =
      [{ userId := 1, fileHash := "h", contentId := 1, status := "completed",
         ttl := some tombstoneTTL }] ∧
    (FastUpload 2 2 "b.mp4" "h" (runOps wAfterUpload [Op.opInit 2 "b.mp4" "h"])).1.tombstones =
      [{ userId := 1, fileHash := "h", contentId := 1, status := "completed",
         ttl := some tombstoneTTL },
       { userId := 2, fileHash := "h", contentId := 2, status := "completed",
         ttl := some tombstoneTTL }] ∧
    (InitUpload 1 "a.mp4" "h" (DeleteTombstone 1 "h" wAfterUpload)).1.tombstones =
      [{ userId := 1, fileHash := "h", contentId := 1, status := "completed", ttl := none }] ∧
    (CancelUpload 2 "h2" 2 wMixed).tombstones =
      [{ userId := 2, fileHash := "h2", contentId := 2, status := "cancelled",
         ttl := some tombstoneTTL }] := by
  refine ⟨by decide, by decide, by decide, by decide⟩

/-! ### C10: fastUpload with no FileMeta row -/

/-- C10.  fastUpload(user, contentId, fileName, fileHash) succeeds even
when no FileMeta row exists for fileHash, provided Content(contentId) is
owned by the user: the refCount increment matches zero rows without
raising an error (file_metas is left exactly as it was), the UserContent
row ends up COMPLETED, a completed tombstone is written, and afterwards
the hash still has no FileMeta row and no blob. -/
theorem fastupload_without_filemeta (u : Int) (cid : Nat) (fileName fileHash : String)
    (s : SysState)
    (howner : (findContentById s cid u).isSome = true)
    (hmeta : findFileMeta s fileHash = none)
    (hblob : FileExists s fileHash = false) :
    (FastUpload u cid fileName fileHash s).2 = Except.ok () ∧
    (FastUpload u cid fileName fileHash s).1.fileMetas = s.fileMetas ∧
    (∃ uc ∈ (FastUpload u cid fileName fileHash s).1.userContents,
       uc.userId = u ∧ uc.contentId = cid ∧ uc.status = 1) ∧
    (∃ ts ∈ (FastUpload u cid fileName fileHash s).1.tombstones,
       ts.userId = u ∧ ts.fileHash = fileHash ∧ ts.status = "completed") ∧
    findFileMeta (FastUpload u cid fileName fileHash s).1 fileHash = none ∧
    FileExists (FastUpload u cid fileName fileHash s).1 fileHash = false := by
  obtain ⟨ct, hct⟩ := Option.isSome_iff_exists.mp howner
  have hmetas : ∀ fm ∈ s.fileMetas, (fm.fileHash == fileHash) = false := by
    intro fm hfm
    have := List.find?_eq_none.mp hmeta fm hfm
    simpa using this
  have hmapid : (s.fileMetas.map
      (fun fm => if fm.fileHash == fileHash then { fm with refCount := fm.refCount + 1 } else fm))
      = s.fileMetas :=
    map_if_id _ _ _ hmetas
  unfold FastUpload CreateUserFileForFastUpload
  rw [hct]
  simp only [hmapid]
  cases huc : findUserContent s u cid with
  | none =>
    refine ⟨rfl, rfl, ?_, ?_, ?_, ?_⟩
    · refine ⟨{ id := s.nextUserContentId, userId := u, contentId := cid,
                fileName := fileName, fileHash := fileHash, status := 1 }, ?_, rfl, rfl, rfl⟩
      simp [CreateTombstone]
    · refine ⟨{ userId := u, fileHash := fileHash, contentId := cid,
                status := "completed", ttl := some tombstoneTTL }, ?_, rfl, rfl, rfl⟩
      simp [CreateTombstone]
    · exact hmeta
    · exact hblob
  | some uc =>
    have hucm : uc ∈ s.userContents := List.mem_of_find?_eq_some huc
    have hpred := List.find?_some huc
    simp only [Bool.and_eq_true, beq_iff_eq] at hpred
    refine ⟨rfl, rfl, ?_, ?_, ?_, ?_⟩
    · refine ⟨{ uc with status := 1, fileName := fileName }, ?_, hpred.1, hpred.2, rfl⟩
      simp only [CreateTombstone]
      exact List.mem_map.mpr ⟨uc, hucm, by simp⟩
    · refine ⟨{ userId := u, fileHash := fileHash, contentId := cid,
                status := "completed", ttl := some tombstoneTTL }, ?_, rfl, rfl, rfl⟩
      simp [CreateTombstone]
    · exact hmeta
    · exact hblob

/-- C10 witness: user 1 owns content 1 (created by init) but no FileMeta
row for hash "h" exists; fastUpload succeeds and leaves a COMPLETED
record and tombstone for a hash with no FileMeta row and no blob. -/
theorem fastupload_without_filemeta_witness :
    (FastUpload 1 1 "a.mp4" "h" (runOps initState [Op.opInit 1 "a.mp4" "h"])).2 = Except.ok () ∧
    findFileMeta (FastUpload 1 1 "a.mp4" "h"
      (runOps initState [Op.opInit 1 "a.mp4" "h"])).1 "h" = none ∧
    FileExists (FastUpload 1 1 "a.mp4" "h"
      (runOps initState [Op.opInit 1 "a.mp4" "h"])).1 "h" = false := by
  have h := fastupload_without_filemeta 1 1 "a.mp4" "h"
    (runOps initState [Op.opInit 1 "a.mp4" "h"]) (by decide) (by decide) (by decide)
  exact ⟨h.1, h.2.2.2.2.1, h.2.2.2.2.2⟩

/-! ### C9: delete decrements unconditionally -/

theorem getFilePath_ne_empty (fileHash : String) : (getFilePath fileHash == "") = false := by
  rw [beq_eq_false_iff_ne]
  intro he
  have hd := congrArg String.length he
  unfold getFilePath at hd
  rw [String.length_append] at hd
  have h6 : ("files/" : String).length = 6 := by decide
  have h0 : ("" : String).length = 0 := by decide
  rw [h6, h0] at hd
  omega

theorem getFilePath_inj {a b : String} (h : getFilePath a = getFilePath b) : a = b := by
  unfold getFilePath at h
  have hd := congrArg String.data h
  rw [String.data_append, String.data_append] at hd
  exact String.ext (List.append_cancel_left hd)

theorem find?_filter_not {α : Type} (p : α → Bool) (l : List α) :
    (l.filter (fun x => !(p x))).find? p = none := by
  rw [List.find?_eq_none]
  intro x hx
  have hx2 := (List.mem_filter.mp hx).2
  simp only [Bool.not_eq_eq_eq_not, Bool.not_true] at hx2
  simp [hx2]

theorem find?_blob_filtered (fileHash : String) (blobs : List (String × List Nat)) :
    ((blobs.filter (fun b => !(getFilePath b.1 == getFilePath fileHash))).find?
      (fun b => b.1 == fileHash)) = none := by
  rw [List.find?_eq_none]
  intro b hb hbeq
  have hbf := (List.mem_filter.mp hb).2
  rw [beq_iff_eq] at hbeq
  rw [hbeq] at hbf
  simp at hbf

/-- C9.  For every user u and hash h for which a FileMeta row exists,
delete(u, h) decrements FileMeta(h).refCount by exactly one, flooring at
0, regardless of whether u holds any UserContent row with that hash (the
UserContent delete may match zero rows — no hypothesis about the rows of
u appears below); when the re-read refCount is 0 it deletes both the
FileMeta row and the blob, so repeated deletes by a user holding no
reference can remove content still referenced by other users. -/
theorem delete_decrements_refcount (u : Int) (fileHash : String) (s : SysState)
    (fm : FileMetaRow)
    (hfm : findFileMeta s fileHash = some fm)
    (hpath : fm.filePath = getFilePath fileHash) :
    refCountOf (DeleteFile u fileHash s) fileHash = max (fm.refCount - 1) 0 ∧
    (max (fm.refCount - 1) 0 = 0 →
       findFileMeta (DeleteFile u fileHash s) fileHash = none ∧
       FileExists (DeleteFile u fileHash s) fileHash = false) ∧
    (0 < max (fm.refCount - 1) 0 →
       findFileMeta (DeleteFile u fileHash s) fileHash =
         some { fm with refCount := max (fm.refCount - 1) 0 } ∧
       FileExists (DeleteFile u fileHash s) fileHash = FileExists s fileHash) := by
  unfold findFileMeta at hfm
  have hp : (fm.fileHash == fileHash) = true :=
    @List.find?_some _ (fun x => x.fileHash == fileHash) fm s.fileMetas hfm
  have hpres : ∀ a ∈ s.fileMetas,
      ((if a.fileHash == fileHash
        then { a with refCount := max (a.refCount - 1) 0 } else a).fileHash == fileHash)
        = (a.fileHash == fileHash) := by
    intro a _
    by_cases hc : (a.fileHash == fileHash) = true
    · simp [hc]
    · simp [hc]
  have hmap : (s.fileMetas.map
      (fun x => if x.fileHash == fileHash
        then { x with refCount := max (x.refCount - 1) 0 } else x)).find?
      (fun x => x.fileHash == fileHash)
      = some { fm with refCount := max (fm.refCount - 1) 0 } := by
    rw [find?_map_pred _ _ _ hpres, hfm, Option.map_some', if_pos hp]
  unfold DeleteFile DeleteUserFile DeleteTombstone
  simp only [findFileMeta]
  simp only [hfm, hmap]
  split
  · rename_i hz
    replace hz : max (fm.refCount - 1) 0 ≤ 0 := hz
    have hz0 : max (fm.refCount - 1) 0 = 0 := le_antisymm hz (le_max_right _ _)
    split
    · rename_i h2
      exfalso
      have h3 : (fm.filePath == "") = true := h2
      rw [hpath, getFilePath_ne_empty] at h3
      exact Bool.false_ne_true h3
    · rename_i h2
      refine ⟨?_, fun _ => ⟨?_, ?_⟩, fun hposs => absurd hz0 (by omega)⟩
      · simp only [refCountOf, findFileMeta, hpath, find?_filter_not]
        omega
      · simp only [findFileMeta, hpath, find?_filter_not]
      · simp only [FileExists, hpath, find?_blob_filtered, Option.isSome_none]
  · rename_i hz
    replace hz : ¬(max (fm.refCount - 1) 0 ≤ 0) := hz
    refine ⟨?_, fun h0 => absurd h0 (by omega), fun _ => ⟨?_, rfl⟩⟩
    · simp only [refCountOf, findFileMeta, hmap]
    · simp only [findFileMeta, hmap]

/-- C9 witness: user 99 holds no row for hash "h", yet delete(99, "h")
drops the refCount from 1 to 0 and removes the FileMeta row and the blob
while the COMPLETED row of user 1 survives. -/
theorem delete_decrements_refcount_witness :
    refCountOf (DeleteFile 99 "h" wAfterUpload) "h" = 0 ∧
    findFileMeta (DeleteFile 99 "h" wAfterUpload) "h" = none ∧
    FileExists (DeleteFile 99 "h" wAfterUpload) "h" = false ∧
    (DeleteFile 99 "h" wAfterUpload).userContents = wAfterUpload.userContents := by
  have h := delete_decrements_refcount 99 "h" wAfterUpload
    { fileHash := "h", contentId := 1, filePath := "files/h", fileSize := 3, refCount := 1 }
    (by decide) (by decide)
  have hz : max ((1 : Int) - 1) 0 = 0 := by decide
  refine ⟨?_, (h.2.1 hz).1, (h.2.1 hz).2, by decide⟩
  rw [h.1]
  decide

/-! ### C4: idempotent chunk upload -/

theorem mem_insertSorted (x a : Int) (l : List Int) :
    a ∈ insertSorted x l ↔ a = x ∨ a ∈ l := by
  induction l with
  | nil => simp [insertSorted]
  | cons y ys ih =>
    simp only [insertSorted]
    split
    · simp [List.mem_cons]
    · simp only [List.mem_cons, ih]
      tauto

theorem mem_sortInts (a : Int) (l : List Int) : a ∈ sortInts l ↔ a ∈ l := by
  induction l with
  | nil => simp [sortInts]
  | cons y ys ih =>
    simp only [sortInts, List.foldr_cons] at ih ⊢
    rw [mem_insertSorted]
    simp [ih, List.mem_cons]

theorem recordUploadedChunk_fields (u : Int) (fileHash : String) (i : Int) (t : SysState) :
    (RecordUploadedChunk u fileHash i t).scratch = t.scratch ∧
    (RecordUploadedChunk u fileHash i t).tombstones = t.tombstones := by
  unfold RecordUploadedChunk
  split
  · exact ⟨rfl, rfl⟩
  · exact ⟨rfl, rfl⟩

theorem uploadChunk_exists_of_present (u : Int) (fileHash : String) (cid : Nat)
    (i total : Int) (data : List Nat) (t : SysState)
    (hc : CheckBeforeUploadChunk t u fileHash = none)
    (hcont : (GetUploadedChunks t u fileHash).contains i = true) :
    UploadChunk u fileHash cid i total data t = (t, ChunkUploadResult.chunkExists) := by
  unfold UploadChunk
  rw [hc]
  simp only [hcont]
  rfl

/-- C4.  Uploading the same chunk payload at index i twice or more for
the same (user, fileHash) is idempotent: with no tombstone present and a
nonempty payload, the first call stages the chunk bytes, and every later
attempt leaves the whole state (and hence the stored chunk bytes)
unchanged, returns CHUNK_ALREADY_UPLOADED, and is surfaced by the
handler as HTTP 200 with status chunk_exists. -/
theorem chunk_upload_idempotent (u : Int) (fileHash : String) (cid : Nat) (i total : Int)
    (data : List Nat) (s : SysState)
    (hts : findTombstone s u fileHash = none)
    (hnew : i ∉ GetUploadedChunks s u fileHash)
    (hdata : data ≠ []) :
    (UploadChunk u fileHash cid i total data s).2 = ChunkUploadResult.uploaded ∧
    lookupChunk (UploadChunk u fileHash cid i total data s).1 u fileHash i = some data ∧
    UploadChunk u fileHash cid i total data (UploadChunk u fileHash cid i total data s).1
      = ((UploadChunk u fileHash cid i total data s).1, ChunkUploadResult.chunkExists) ∧
    (∀ n : Nat, (fun t => (UploadChunk u fileHash cid i total data t).1)^[n]
       (UploadChunk u fileHash cid i total data s).1
       = (UploadChunk u fileHash cid i total data s).1) ∧
    uploadChunkHTTP ChunkUploadResult.chunkExists = (200, "chunk_exists") := by
  have hcheck : CheckBeforeUploadChunk s u fileHash = none := by
    unfold CheckBeforeUploadChunk CheckTombstone
    rw [hts]
    rfl
  have hcontains : (GetUploadedChunks s u fileHash).contains i = false := by
    rw [Bool.eq_false_iff]
    intro hc
    exact hnew (List.elem_iff.mp hc)
  have hempty : data.isEmpty = false := by
    cases data with
    | nil => exact absurd rfl hdata
    | cons a l => rfl
  have hrun : UploadChunk u fileHash cid i total data s =
      (RecordUploadedChunk u fileHash i
        { s with scratch :=
            (s.scratch.filter
              (fun c => !(c.userId == u && c.fileHash == fileHash && c.index == i))) ++
            [{ userId := u, fileHash := fileHash, index := i, data := data }] },
       ChunkUploadResult.uploaded) := by
    unfold UploadChunk WriteChunk
    rw [hcheck]
    simp only [hcontains, hempty]
    rfl
  have hfields := recordUploadedChunk_fields u fileHash i
    { s with scratch :=
        (s.scratch.filter
          (fun c => !(c.userId == u && c.fileHash == fileHash && c.index == i))) ++
        [{ userId := u, fileHash := fileHash, index := i, data := data }] }
  have hres : (UploadChunk u fileHash cid i total data s).2 = ChunkUploadResult.uploaded := by
    rw [hrun]
  have hscr : (UploadChunk u fileHash cid i total data s).1.scratch =
      (s.scratch.filter
        (fun c => !(c.userId == u && c.fileHash == fileHash && c.index == i))) ++
      [{ userId := u, fileHash := fileHash, index := i, data := data }] := by
    rw [hrun]
    exact hfields.1
  have htsnew : (UploadChunk u fileHash cid i total data s).1.tombstones = s.tombstones := by
    rw [hrun]
    exact hfields.2
  have hlook : lookupChunk (UploadChunk u fileHash cid i total data s).1 u fileHash i
      = some data := by
    unfold lookupChunk
    rw [hscr, List.find?_append, find?_filter_not]
    simp [List.find?]
  have hmem : i ∈ GetUploadedChunks (UploadChunk u fileHash cid i total data s).1 u fileHash := by
    unfold GetUploadedChunks
    rw [mem_sortInts, List.mem_map]
    refine ⟨{ userId := u, fileHash := fileHash, index := i, data := data }, ?_, rfl⟩
    rw [List.mem_filter, hscr]
    refine ⟨List.mem_append.mpr (Or.inr (List.mem_singleton.mpr rfl)), by simp⟩
  have hcheck2 : CheckBeforeUploadChunk (UploadChunk u fileHash cid i total data s).1 u fileHash
      = none := by
    unfold CheckBeforeUploadChunk CheckTombstone findTombstone
    rw [htsnew]
    unfold findTombstone at hts
    rw [hts]
    rfl
  have hcont2 : (GetUploadedChunks (UploadChunk u fileHash cid i total data s).1 u
      fileHash).contains i = true := by
    exact List.elem_iff.mpr hmem
  have hsecond := uploadChunk_exists_of_present u fileHash cid i total data
    (UploadChunk u fileHash cid i total data s).1 hcheck2 hcont2
  refine ⟨hres, hlook, hsecond, ?_, rfl⟩
  intro n
  exact Function.iterate_fixed (congrArg Prod.fst hsecond) n

/-- C4 witness: uploading chunk 0 for user 1 twice from the empty state —
the second attempt is a no-op surfaced as chunk_exists. -/
theorem chunk_upload_idempotent_witness :
    (UploadChunk 1 "h" 1 0 3 [5] initState).2 = ChunkUploadResult.uploaded ∧
    UploadChunk 1 "h" 1 0 3 [5] (UploadChunk 1 "h" 1 0 3 [5] initState).1
      = ((UploadChunk 1 "h" 1 0 3 [5] initState).1, ChunkUploadResult.chunkExists) ∧
    uploadChunkHTTP ChunkUploadResult.chunkExists = (200, "chunk_exists") := by
  have h := chunk_upload_idempotent 1 "h" 1 0 3 [5] initState (by decide) (by decide)
    (by decide)
  exact ⟨h.1, h.2.2.1, h.2.2.2.2⟩

/-! ### C5: byte-range parsing, clamping and extraction -/

theorem clampRange_ok {fileSize a b : Int} {e : Except String (Int × Int)}
    (h : clampRange fileSize e = Except.ok (a, b)) :
    0 ≤ a ∧ a ≤ b ∧ b ≤ fileSize - 1 := by
  unfold clampRange at h
  cases e with
  | error e0 => exact absurd h (by simp)
  | ok p =>
    obtain ⟨st, en⟩ := p
    dsimp only at h
    rcases lt_or_ge st 0 with h1 | h1
    · rw [if_pos h1] at h
      rcases le_or_lt fileSize en with h2 | h2
      · rw [if_pos h2] at h
        split at h
        · exact absurd h (by simp)
        · rw [Except.ok.injEq, Prod.mk.injEq] at h
          omega
      · rw [if_neg (not_le.mpr h2)] at h
        split at h
        · exact absurd h (by simp)
        · rw [Except.ok.injEq, Prod.mk.injEq] at h
          omega
    · rw [if_neg (not_lt.mpr h1)] at h
      rcases le_or_lt fileSize en with h2 | h2
      · rw [if_pos h2] at h
        split at h
        · exact absurd h (by simp)
        · rw [Except.ok.injEq, Prod.mk.injEq] at h
          omega
      · rw [if_neg (not_le.mpr h2)] at h
        split at h
        · exact absurd h (by simp)
        · rw [Except.ok.injEq, Prod.mk.injEq] at h
          omega

theorem parseRangeHeader_ok {header : String} {fileSize a b : Int}
    (h : parseRangeHeader header fileSize = Except.ok (a, b)) :
    0 ≤ a ∧ a ≤ b ∧ b ≤ fileSize - 1 := by
  unfold parseRangeHeader at h
  split at h
  · split at h
    · exact clampRange_ok h
    · exact absurd h (by simp)
  · exact absurd h (by simp)

/-- C5.  For a file of size S, a successfully parsed Range header — any
of the forms bytes=start-end, bytes=start- or bytes=-suffix — yields a
pair clamped into [0, S-1] with start ≤ end (a clamped start exceeding
the end is rejected before this point), and the partial stream for every
such pair contains exactly bytes [a..b] of the file, with length
b - a + 1. -/
theorem range_roundtrip (file : List Nat) (header : String) (a b : Int)
    (hp : parseRangeHeader header (file.length : Int) = Except.ok (a, b)) :
    0 ≤ a ∧ a ≤ b ∧ b < (file.length : Int) ∧
    ((GetFileRangeBytes file a b).length : Int) = b - a + 1 ∧
    (∀ i : Nat, (i : Int) ≤ b - a →
      (GetFileRangeBytes file a b)[i]? = file[a.toNat + i]?) := by
  obtain ⟨h0, hab, hb⟩ := parseRangeHeader_ok hp
  have hbS : b < (file.length : Int) := by omega
  refine ⟨h0, hab, hbS, ?_, ?_⟩
  · unfold GetFileRangeBytes
    rw [List.length_take, List.length_drop]
    have hle : (b - a + 1).toNat ≤ file.length - a.toNat := by omega
    rw [min_eq_left hle]
    omega
  · intro i hi
    unfold GetFileRangeBytes
    rw [List.getElem?_take, if_pos (by omega : i < (b - a + 1).toNat), List.getElem?_drop]

/-- C5 witness: a 5-byte file with header bytes=1-3 yields exactly bytes
1..3 with length 3. -/
theorem range_roundtrip_witness :
    parseRangeHeader "bytes=1-3" (([10, 20, 30, 40, 50] : List Nat).length : Int)
      = Except.ok (1, 3) ∧
    ((GetFileRangeBytes [10, 20, 30, 40, 50] 1 3).length : Int) = 3 - 1 + 1 ∧
    GetFileRangeBytes [10, 20, 30, 40, 50] 1 3 = [20, 30, 40] := by
  have hp : parseRangeHeader "bytes=1-3" (([10, 20, 30, 40, 50] : List Nat).length : Int)
      = Except.ok (1, 3) := by rfl
  have h := range_roundtrip [10, 20, 30, 40, 50] "bytes=1-3" 1 3 hp
  exact ⟨hp, h.2.2.2.1, by decide⟩

/-! ### C6: lock release and blocking acquisition -/

theorem lockAttempts_held (l : DistributedLock) (cancelled : Nat → Bool)
    (st : List (String × String)) (w : String) (hheld : lookupLock st l.key = some w) :
    ∀ fuel i, (lockAttempts l cancelled st fuel i).1 = st ∧
      ((lockAttempts l cancelled st fuel i).2 = Except.error LockError.lockTimeout ∨
       (lockAttempts l cancelled st fuel i).2 = Except.error LockError.lockFailed) := by
  intro fuel
  induction fuel with
  | zero => intro i; exact ⟨rfl, Or.inr rfl⟩
  | succ n ih =>
    intro i
    unfold lockAttempts
    cases hc : cancelled i with
    | true => exact ⟨rfl, Or.inl rfl⟩
    | false =>
      have htl : TryLock l st = (st, false) := by
        unfold TryLock
        rw [hheld]
      rw [htl]
      exact ih (i + 1)

theorem lockAttempts_held_nocancel (l : DistributedLock) (cancelled : Nat → Bool)
    (st : List (String × String)) (w : String) (hheld : lookupLock st l.key = some w)
    (hnc : ∀ i, cancelled i = false) :
    ∀ fuel i, (lockAttempts l cancelled st fuel i).2 = Except.error LockError.lockFailed := by
  intro fuel
  induction fuel with
  | zero => intro i; rfl
  | succ n ih =>
    intro i
    unfold lockAttempts
    rw [hnc i]
    have htl : TryLock l st = (st, false) := by
      unfold TryLock
      rw [hheld]
    rw [htl]
    exact ih (i + 1)

theorem lockAttempts_free (l : DistributedLock) (cancelled : Nat → Bool)
    (st : List (String × String)) (fuel i : Nat) (hf : 0 < fuel)
    (hnc : cancelled i = false) (hfree : lookupLock st l.key = none) :
    lockAttempts l cancelled st fuel i = ((l.key, l.value) :: st, Except.ok ()) := by
  cases fuel with
  | zero => omega
  | succ n =>
    unfold lockAttempts
    have htl : TryLock l st = ((l.key, l.value) :: st, true) := by
      unfold TryLock
      rw [hfree]
    rw [hnc, htl]
    rfl

/-- C6.  Lock release is an atomic compare-and-delete on the owner
token: unlock deletes the lock key and succeeds iff the stored value
equals the token of the caller, and otherwise leaves the store unchanged
and reports lock-not-held.  Blocking acquisition polls set-if-absent
with 50 ms backoff for at most 100 attempts; against a held key it fails
without acquiring the lock — with ErrLockTimeout on caller cancellation
and with ErrLockFailed on exhaustion. -/
theorem lock_release_and_polling (l : DistributedLock) (st : List (String × String))
    (key token : String) (ttl : Nat) (cancelled : Nat → Bool) :
    ((Unlock l st).2 = Except.ok () ↔ lookupLock st l.key = some l.value) ∧
    ((Unlock l st).2 = Except.ok () →
       (Unlock l st).1 = st.filter (fun e => !(e.1 == l.key))) ∧
    ((Unlock l st).2 ≠ Except.ok () →
       (Unlock l st).1 = st ∧ (Unlock l st).2 = Except.error LockError.lockNotHeld) ∧
    (NewLock key ttl token).retryDelayMs = 50 ∧
    (NewLock key ttl token).maxRetries = 100 ∧
    (lookupLock st (NewLock key ttl token).key = none → cancelled 0 = false →
       Lock (NewLock key ttl token) cancelled st
         = (((NewLock key ttl token).key, token) :: st, Except.ok ())) ∧
    (∀ w, lookupLock st (NewLock key ttl token).key = some w →
       (Lock (NewLock key ttl token) cancelled st).1 = st ∧
       ((Lock (NewLock key ttl token) cancelled st).2 = Except.error LockError.lockTimeout ∨
        (Lock (NewLock key ttl token) cancelled st).2 = Except.error LockError.lockFailed)) ∧
    (∀ w, lookupLock st (NewLock key ttl token).key = some w → (∀ i, cancelled i = false) →
       (Lock (NewLock key ttl token) cancelled st).2 = Except.error LockError.lockFailed) := by
  have hbeq : ((lookupLock st l.key == some l.value) = true) ↔
      lookupLock st l.key = some l.value := beq_iff_eq
  refine ⟨?_, ?_, ?_, rfl, rfl, ?_, ?_, ?_⟩
  · unfold Unlock
    constructor
    · intro hok
      by_cases hc : (lookupLock st l.key == some l.value) = true
      · exact hbeq.mp hc
      · rw [if_neg hc] at hok
        exact absurd hok (by simp)
    · intro heq
      rw [if_pos (hbeq.mpr heq)]
  · intro hok
    unfold Unlock at hok ⊢
    by_cases hc : (lookupLock st l.key == some l.value) = true
    · rw [if_pos hc]
    · rw [if_neg hc] at hok
      exact absurd hok (by simp)
  · intro hnok
    unfold Unlock at hnok ⊢
    by_cases hc : (lookupLock st l.key == some l.value) = true
    · rw [if_pos hc] at hnok
      exact absurd rfl hnok
    · rw [if_neg hc]
      exact ⟨rfl, rfl⟩
  · intro hfree hnc
    unfold Lock
    exact lockAttempts_free (NewLock key ttl token) cancelled st
      (NewLock key ttl token).maxRetries 0 (by simp [NewLock]) hnc hfree
  · intro w hw
    exact lockAttempts_held (NewLock key ttl token) cancelled st w hw
      (NewLock key ttl token).maxRetries 0
  · intro w hw hnc
    exact lockAttempts_held_nocancel (NewLock key ttl token) cancelled st w hw hnc
      (NewLock key ttl token).maxRetries 0

/-- C6 witness: owner release succeeds and deletes the key; release with
a foreign token leaves the key and reports lock-not-held; acquisition on
a free key succeeds immediately, and against a held key 100 polls
exhaust into ErrLockFailed without touching the store. -/
theorem lock_release_and_polling_witness :
    (Unlock (NewLock "k" 30 "tokB") [("lock:k", "tokB")]).2 = Except.ok () ∧
    (Unlock (NewLock "k" 30 "tokA") [("lock:k", "tokB")]).1 = [("lock:k", "tokB")] ∧
    (Unlock (NewLock "k" 30 "tokA") [("lock:k", "tokB")]).2
      = Except.error LockError.lockNotHeld ∧
    Lock (NewLock "k" 30 "tokA") (fun _ => false) []
      = ([("lock:k", "tokA")], Except.ok ()) ∧
    (Lock (NewLock "k" 30 "tokA") (fun _ => false) [("lock:k", "tokB")]).1
      = [("lock:k", "tokB")] ∧
    (Lock (NewLock "k" 30 "tokA") (fun _ => false) [("lock:k", "tokB")]).2
      = Except.error LockError.lockFailed := by
  have h1 := lock_release_and_polling (NewLock "k" 30 "tokB") [("lock:k", "tokB")]
    "k" "tokB" 30 (fun _ => false)
  have h2 := lock_release_and_polling (NewLock "k" 30 "tokA") [("lock:k", "tokB")]
    "k" "tokA" 30 (fun _ => false)
  have h3 := lock_release_and_polling (NewLock "k" 30 "tokA") [] "k" "tokA" 30 (fun _ => false)
  have hval : (Unlock (NewLock "k" 30 "tokA") [("lock:k", "tokB")]).2
      = Except.error LockError.lockNotHeld := rfl
  have hne : (Unlock (NewLock "k" 30 "tokA") [("lock:k", "tokB")]).2 ≠ Except.ok () := by
    rw [hval]
    simp
  refine ⟨h1.1.mpr (by rfl), (h2.2.2.1 hne).1, (h2.2.2.1 hne).2,
    h3.2.2.2.2.2.1 (by rfl) rfl,
    (h2.2.2.2.2.2.2.1 "tokB" (by rfl)).1,
    h2.2.2.2.2.2.2.2 "tokB" (by rfl) (fun i => rfl)⟩

/-! ### C7: startup tombstone reconstruction -/

theorem mem_buildStartupLoop (existingFiles : List String) (l : List UploadRow)
    (p : UploadRow × String) :
    p ∈ buildStartupLoop existingFiles l ↔
      p.1 ∈ l ∧ buildStartupStatus existingFiles p.1 = some p.2 := by
  induction l with
  | nil => simp [buildStartupLoop]
  | cons x xs ih =>
    simp only [buildStartupLoop]
    cases hx : buildStartupStatus existingFiles x with
    | none =>
      rw [ih]
      constructor
      · intro h
        exact ⟨List.mem_cons_of_mem x h.1, h.2⟩
      · rintro ⟨hx1, hst⟩
        rcases List.mem_cons.mp hx1 with hx1 | hx1
        · rw [hx1] at hst
          rw [hst] at hx
          exact absurd hx (by simp)
        · exact ⟨hx1, hst⟩
    | some st =>
      simp only [List.mem_cons, ih]
      constructor
      · rintro (hp | h)
        · rw [hp]
          exact ⟨Or.inl rfl, hx⟩
        · exact ⟨Or.inr h.1, h.2⟩
      · rintro ⟨hx1 | hx1, hst⟩
        · left
          have h2 : p.2 = st := by
            have hh := hst
            rw [hx1, hx] at hh
            exact (Option.some.inj hh).symm
          have h1 : p = (p.1, p.2) := rfl
          rw [h1, hx1, h2]
        · exact Or.inr ⟨hx1, hst⟩

theorem mem_loadTombstonesOnStartup (s : SysState) (t : TombstoneRow) :
    t ∈ LoadTombstonesOnStartup s ↔
      ∃ u0 ∈ GetCompletedUploadsForTombstone s, ∃ st,
        buildStartupStatus (GetFileMetaHashes s) u0 = some st ∧
        t = { userId := u0.userId, fileHash := u0.fileHash, contentId := u0.contentId,
              status := st,
              ttl := if st == "cancelled" then some tombstoneTTL else none } := by
  unfold LoadTombstonesOnStartup LoadTombstonesFromDB BuildStartupTombstones
  constructor
  · intro ht
    obtain ⟨p, hp, hmk⟩ := List.mem_map.mp ht
    obtain ⟨hmem, hst⟩ := (mem_buildStartupLoop _ _ p).mp hp
    exact ⟨p.1, hmem, p.2, hst, hmk.symm⟩
  · rintro ⟨u0, hu0, st, hst, ht⟩
    rw [List.mem_map]
    exact ⟨(u0, st), (mem_buildStartupLoop _ _ (u0, st)).mpr ⟨hu0, hst⟩, ht.symm⟩

/-- C7.  At startup, for every UserContent row with nonempty fileHash:
a COMPLETED row whose hash is backed by a FileMeta row publishes a
completed tombstone with no TTL; a CANCELLED or UPLOADING row publishes
a cancelled tombstone with the 24-hour TTL; a COMPLETED row whose hash
is absent from FileMeta publishes nothing for its key. -/
theorem startup_tombstones (s : SysState)
    (huniq : List.Pairwise
      (fun a b => ¬(a.userId = b.userId ∧ a.contentId = b.contentId)) s.userContents) :
    ∀ uc ∈ s.userContents, uc.fileHash ≠ "" →
      (uc.status = 1 → (GetFileMetaHashes s).contains uc.fileHash = true →
        ({ userId := uc.userId, fileHash := uc.fileHash, contentId := uc.contentId,
           status := "completed", ttl := none } : TombstoneRow) ∈ LoadTombstonesOnStartup s) ∧
      ((uc.status = -1 ∨ uc.status = 0) →
        ({ userId := uc.userId, fileHash := uc.fileHash, contentId := uc.contentId,
           status := "cancelled", ttl := some tombstoneTTL } : TombstoneRow)
          ∈ LoadTombstonesOnStartup s) ∧
      (uc.status = 1 → (GetFileMetaHashes s).contains uc.fileHash = false →
        ∀ st ttl,
          ({ userId := uc.userId, fileHash := uc.fileHash, contentId := uc.contentId,
             status := st, ttl := ttl } : TombstoneRow) ∉ LoadTombstonesOnStartup s) := by
  intro uc hmem hnz
  have hup :
      ({ userId := uc.userId, fileHash := uc.fileHash, contentId := uc.contentId,
         status := uc.status } : UploadRow) ∈ GetCompletedUploadsForTombstone s := by
    unfold GetCompletedUploadsForTombstone
    refine List.mem_map.mpr ⟨uc, List.mem_filter.mpr ⟨hmem, ?_⟩, rfl⟩
    simp only [Bool.not_eq_eq_eq_not, Bool.not_false, beq_eq_false_iff_ne, ne_eq]
    simpa using hnz
  refine ⟨?_, ?_, ?_⟩
  · intro hst hin
    rw [mem_loadTombstonesOnStartup]
    refine ⟨_, hup, "completed", ?_, by simp⟩
    unfold buildStartupStatus
    simp [hst, hin]
    exact List.elem_iff.mp hin
  · intro hst
    rw [mem_loadTombstonesOnStartup]
    refine ⟨_, hup, "cancelled", ?_, by simp⟩
    unfold buildStartupStatus
    rcases hst with hst | hst
    · simp [hst]
    · simp [hst]
  · intro hst hnotin st0 ttl0 hcon
    rw [mem_loadTombstonesOnStartup] at hcon
    obtain ⟨u0, hu0, st1, hbuild, heq⟩ := hcon
    obtain ⟨r, hr, hproj⟩ := List.mem_map.mp hu0
    have hrmem := (List.mem_filter.mp hr).1
    rw [TombstoneRow.mk.injEq] at heq
    have hu : u0.userId = uc.userId := heq.1.symm
    have hh : u0.fileHash = uc.fileHash := heq.2.1.symm
    have hcid : u0.contentId = uc.contentId := heq.2.2.1.symm
    have hru : r.userId = uc.userId := by rw [← hproj] at hu; exact hu
    have hrcid : r.contentId = uc.contentId := by rw [← hproj] at hcid; exact hcid
    have hreq : r = uc := by
      by_contra hne
      have hsym : Symmetric (fun a b : UserContentRow =>
          ¬(a.userId = b.userId ∧ a.contentId = b.contentId)) := by
        intro a b hab hba
        exact hab ⟨hba.1.symm, hba.2.symm⟩
      exact (huniq.forall hsym hrmem hmem hne) ⟨hru, hrcid⟩
    have hstat : u0.status = 1 := by
      rw [← hproj, hreq, hst]
    unfold buildStartupStatus at hbuild
    rw [hstat] at hbuild
    have hinh : u0.fileHash = uc.fileHash := hh
    rw [hinh, hnotin] at hbuild
    simp at hbuild

/-- C7 witness: in the mixed state, the COMPLETED row backed by a
FileMeta row publishes a no-TTL completed tombstone, the UPLOADING and
CANCELLED rows publish cancelled tombstones with the TTL, and the
COMPLETED row with no FileMeta backing publishes nothing. -/
theorem startup_tombstones_witness :
    ({ userId := 1, fileHash := "h1", contentId := 1, status := "completed",
       ttl := none } : TombstoneRow) ∈ LoadTombstonesOnStartup wMixed ∧
    ({ userId := 2, fileHash := "h2", contentId := 2, status := "cancelled",
       ttl := some tombstoneTTL } : TombstoneRow) ∈ LoadTombstonesOnStartup wMixed ∧
    ({ userId := 3, fileHash := "h3", contentId := 3, status := "cancelled",
       ttl := some tombstoneTTL } : TombstoneRow) ∈ LoadTombstonesOnStartup wMixed ∧
    ({ userId := 4, fileHash := "h4", contentId := 4, status := "completed",
       ttl := none } : TombstoneRow) ∉ LoadTombstonesOnStartup wMixed := by
  have h1 := startup_tombstones wMixed (by decide)
    { id := 1, userId := 1, contentId := 1, fileName := "a", fileHash := "h1", status := 1 }
    (by decide) (by decide)
  have h2 := startup_tombstones wMixed (by decide)
    { id := 2, userId := 2, contentId := 2, fileName := "b", fileHash := "h2", status := 0 }
    (by decide) (by decide)
  have h3 := startup_tombstones wMixed (by decide)
    { id := 3, userId := 3, contentId := 3, fileName := "c", fileHash := "h3", status := -1 }
    (by decide) (by decide)
  have h4 := startup_tombstones wMixed (by decide)
    { id := 4, userId := 4, contentId := 4, fileName := "d", fileHash := "h4", status := 1 }
    (by decide) (by decide)
  exact ⟨h1.1 rfl (by decide), h2.2.1 (Or.inr rfl), h3.2.1 (Or.inl rfl),
    h4.2.2 rfl (by decide) "completed" none⟩

/-! ### C3: merge completeness -/

theorem intOfNat_eq_cast (n : Nat) : Int.ofNat n = (n : Int) := rfl

theorem lookup_mem_chunks (s : SysState) (u : Int) (fileHash : String) (i : Int) :
    i ∈ GetUploadedChunks s u fileHash ↔ (lookupChunk s u fileHash i).isSome = true := by
  unfold GetUploadedChunks lookupChunk
  rw [mem_sortInts, Option.isSome_map']
  rw [List.find?_isSome]
  constructor
  · intro h
    obtain ⟨c, hc, hci⟩ := List.mem_map.mp h
    have hcf := List.mem_filter.mp hc
    refine ⟨c, hcf.1, ?_⟩
    have hp := hcf.2
    simp only [Bool.and_eq_true, beq_iff_eq] at hp ⊢
    exact ⟨⟨hp.1, hp.2⟩, hci⟩
  · rintro ⟨c, hc, hp⟩
    simp only [Bool.and_eq_true, beq_iff_eq] at hp
    refine List.mem_map.mpr ⟨c, List.mem_filter.mpr ⟨hc, ?_⟩, hp.2⟩
    simp only [Bool.and_eq_true, beq_iff_eq]
    exact ⟨hp.1.1, hp.1.2⟩

theorem collectChunks_ok_mem (s : SysState) (u : Int) (fileHash : String) :
    ∀ n : Nat, (∀ k : Nat, k < n → (lookupChunk s u fileHash (Int.ofNat k)).isSome = true) →
      ∃ bytes, collectChunks s u fileHash n = Except.ok bytes := by
  intro n
  induction n with
  | zero => exact fun _ => ⟨[], rfl⟩
  | succ m ih =>
    intro hall
    obtain ⟨acc, hacc⟩ := ih (fun k hk => hall k (Nat.lt_succ_of_lt hk))
    have hm := hall m (Nat.lt_succ_self m)
    obtain ⟨d, hd⟩ := Option.isSome_iff_exists.mp hm
    refine ⟨acc ++ d, ?_⟩
    unfold collectChunks
    rw [hacc, hd]

theorem collectChunks_ok_all (s : SysState) (u : Int) (fileHash : String) :
    ∀ n : Nat, ∀ bytes, collectChunks s u fileHash n = Except.ok bytes →
      ∀ k : Nat, k < n → (lookupChunk s u fileHash (Int.ofNat k)).isSome = true := by
  intro n
  induction n with
  | zero => intro bytes _ k hk; omega
  | succ m ih =>
    intro bytes hok k hk
    unfold collectChunks at hok
    cases hprev : collectChunks s u fileHash m with
    | error j => rw [hprev] at hok; exact absurd hok (by simp)
    | ok acc =>
      rw [hprev] at hok
      cases hl : lookupChunk s u fileHash (Int.ofNat m) with
      | none => rw [hl] at hok; exact absurd hok (by simp)
      | some d =>
        rcases Nat.lt_succ_iff_lt_or_eq.mp hk with hk2 | hk2
        · exact ih acc hprev k hk2
        · rw [hk2, hl]
          rfl

theorem mem_rangeInts (total : Int) (i : Int) :
    i ∈ ((List.range total.toNat).map (fun n => Int.ofNat n)) ↔ 0 ≤ i ∧ i < total := by
  simp only [List.mem_map, List.mem_range, intOfNat_eq_cast]
  constructor
  · rintro ⟨n, hn, rfl⟩
    omega
  · rintro ⟨h0, hlt⟩
    exact ⟨i.toNat, by omega, by omega⟩

theorem nodup_rangeInts (total : Int) :
    ((List.range total.toNat).map (fun n => Int.ofNat n)).Nodup :=
  (List.nodup_range total.toNat).map (fun a b hab => by
    rw [intOfNat_eq_cast, intOfNat_eq_cast] at hab
    omega)

theorem findMissingChunks_mem (uploaded : List Int) (total : Int) (i : Int) :
    i ∈ findMissingChunks uploaded total ↔ (0 ≤ i ∧ i < total ∧ i ∉ uploaded) := by
  unfold findMissingChunks
  rw [List.mem_filter, mem_rangeInts]
  constructor
  · rintro ⟨⟨h0, hlt⟩, hcon⟩
    have hcon2 : uploaded.contains i = false := Eq.mp (Bool.not_eq_true' _) hcon
    refine ⟨h0, hlt, fun hmem => ?_⟩
    have h3 : uploaded.contains i = true := List.elem_iff.mpr hmem
    rw [hcon2] at h3
    exact Bool.false_ne_true h3
  · rintro ⟨h0, hlt, hni⟩
    refine ⟨⟨h0, hlt⟩, ?_⟩
    rw [Bool.not_eq_true', Bool.eq_false_iff]
    intro hc
    exact hni (List.elem_iff.mp hc)

/-- C3 counterexample.  With chunks staged at indices 0, 1 and 3 and
totalChunks = 3, the index set differs from {0, 1, 2} (index 3 is
present but out of range), yet merge does not return MISSING_CHUNKS:
the count matches, so the blob-store merge is attempted and fails
opening chunk 2. -/
theorem merge_missing_chunks_counterexample :
    (3 : Int) ∈ GetUploadedChunks wGappyScratch 1 "h" ∧
    ¬((0 : Int) ≤ 3 ∧ (3 : Int) < 3) ∧
    (MergeChunks 1 1 "a.mp4" "h" 3 0 wGappyScratch).2
      = Except.error (MergeError.storeMergeFailed 2) ∧
    (∀ m : List Int, (MergeChunks 1 1 "a.mp4" "h" 3 0 wGappyScratch).2
      ≠ Except.error (MergeError.missingChunks m)) := by
  refine ⟨by decide, by decide, by decide, ?_⟩
  intro m hm
  rw [show (MergeChunks 1 1 "a.mp4" "h" 3 0 wGappyScratch).2
      = Except.error (MergeError.storeMergeFailed 2) from rfl] at hm
  exact MergeError.noConfusion (Except.error.inj hm)

/-- C3 (amended).  For nonnegative totalChunks and duplicate-free chunk
listings, merge succeeds iff the chunk-index set enumerated from the
blob store equals {0, ..., totalChunks-1}.  When the chunk COUNT
differs from totalChunks, merge publishes no blob (the state is
unchanged) and returns MISSING_CHUNKS carrying exactly the set of
missing indices; when the count matches but the set still differs,
merge fails with a chunk-open error from the blob store — not
MISSING_CHUNKS — again publishing no blob. -/
theorem merge_completeness (s : SysState) (u : Int) (cid : Nat) (fileName fileHash : String)
    (total fileSize : Int)
    (htotal : 0 ≤ total)
    (hnodup : (GetUploadedChunks s u fileHash).Nodup) :
    ((∃ v, (MergeChunks u cid fileName fileHash total fileSize s).2 = Except.ok v) ↔
      (∀ i : Int, i ∈ GetUploadedChunks s u fileHash ↔ 0 ≤ i ∧ i < total)) ∧
    ((Int.ofNat (GetUploadedChunks s u fileHash).length ≠ total) →
      (MergeChunks u cid fileName fileHash total fileSize s).2
        = Except.error (MergeError.missingChunks
            (findMissingChunks (GetUploadedChunks s u fileHash) total)) ∧
      (MergeChunks u cid fileName fileHash total fileSize s).1 = s ∧
      (∀ i : Int, i ∈ findMissingChunks (GetUploadedChunks s u fileHash) total ↔
         (0 ≤ i ∧ i < total ∧ i ∉ GetUploadedChunks s u fileHash))) ∧
    ((Int.ofNat (GetUploadedChunks s u fileHash).length = total ∧
      ¬(∀ i : Int, i ∈ GetUploadedChunks s u fileHash ↔ 0 ≤ i ∧ i < total)) →
      (∃ j, (MergeChunks u cid fileName fileHash total fileSize s).2
         = Except.error (MergeError.storeMergeFailed j)) ∧
      (MergeChunks u cid fileName fileHash total fileSize s).1 = s) := by
  have hrangelen : ((List.range total.toNat).map (fun n => Int.ofNat n)).length
      = total.toNat := by simp
  by_cases hlen : Int.ofNat (GetUploadedChunks s u fileHash).length = total
  · have hlenc : ((GetUploadedChunks s u fileHash).length : Int) = total := by
      rw [← intOfNat_eq_cast]
      exact hlen
    have hmc : ∀ r, MergeChunks u cid fileName fileHash total fileSize s = r ↔
        (match StoreMergeChunks u fileHash total s with
         | Except.error i => (s, Except.error (MergeError.storeMergeFailed i))
         | Except.ok (s1, filePath, sz) =>
           (CreateTombstone u fileHash cid "completed"
              (ClearUploadedChunks u fileHash
                (FinishMergeAndCreateMeta u cid fileName fileHash filePath sz s1)),
            Except.ok (filePath, sz))) = r := by
      intro r
      unfold MergeChunks
      rw [if_neg (by simpa using hlen)]
    cases hcol : collectChunks s u fileHash total.toNat with
    | ok bytes =>
      have hstore : StoreMergeChunks u fileHash total s =
          Except.ok (CleanupChunks u fileHash
            { s with blobs := (s.blobs.filter (fun b => !(b.1 == fileHash)))
                ++ [(fileHash, bytes)] },
            getFilePath fileHash, Int.ofNat bytes.length) := by
        unfold StoreMergeChunks
        rw [hcol]
      have hmr0 := (hmc _).mpr rfl
      simp only [hstore] at hmr0
      have hiff : ∀ i : Int, i ∈ GetUploadedChunks s u fileHash ↔ 0 ≤ i ∧ i < total := by
        have hsub : ((List.range total.toNat).map (fun n => Int.ofNat n))
            ⊆ GetUploadedChunks s u fileHash := by
          intro i hi
          obtain ⟨h0, hlt⟩ := (mem_rangeInts total i).mp hi
          rw [lookup_mem_chunks]
          have hka := collectChunks_ok_all s u fileHash total.toNat bytes hcol i.toNat (by omega)
          have hcast : Int.ofNat i.toNat = i := by
            rw [intOfNat_eq_cast]
            omega
          rwa [hcast] at hka
        have hperm : ((List.range total.toNat).map (fun n => Int.ofNat n)).Perm
            (GetUploadedChunks s u fileHash) :=
          ((nodup_rangeInts total).subperm hsub).perm_of_length_le
            (by rw [hrangelen]; omega)
        intro i
        rw [← hperm.mem_iff, mem_rangeInts]
      refine ⟨?_, fun hne => absurd hlen hne, fun hcon => absurd hiff hcon.2⟩
      constructor
      · intro _
        exact hiff
      · intro _
        exact ⟨(getFilePath fileHash, Int.ofNat bytes.length), by rw [hmr0]⟩
    | error j =>
      have hstore : StoreMergeChunks u fileHash total s = Except.error j := by
        unfold StoreMergeChunks
        rw [hcol]
      have hmr0 := (hmc _).mpr rfl
      simp only [hstore] at hmr0
      have hniff : ¬(∀ i : Int, i ∈ GetUploadedChunks s u fileHash ↔ 0 ≤ i ∧ i < total) := by
        intro hiff
        have hall : ∀ k : Nat, k < total.toNat →
            (lookupChunk s u fileHash (Int.ofNat k)).isSome = true := by
          intro k hk
          rw [← lookup_mem_chunks, hiff, intOfNat_eq_cast]
          omega
        obtain ⟨bytes, hb⟩ := collectChunks_ok_mem s u fileHash total.toNat hall
        rw [hcol] at hb
        exact absurd hb (by simp)
      refine ⟨?_, fun hne => absurd hlen hne, fun _ => ⟨⟨j, by rw [hmr0]⟩, by rw [hmr0]⟩⟩
      constructor
      · rintro ⟨v, hv⟩
        rw [hmr0] at hv
        exact absurd hv (by simp)
      · intro hiff
        exact absurd hiff hniff
  · have hmr : MergeChunks u cid fileName fileHash total fileSize s
        = (s, Except.error (MergeError.missingChunks
            (findMissingChunks (GetUploadedChunks s u fileHash) total))) := by
      unfold MergeChunks
      rw [if_pos (by simpa using hlen)]
    have hniff : ¬(∀ i : Int, i ∈ GetUploadedChunks s u fileHash ↔ 0 ≤ i ∧ i < total) := by
      intro hiff
      apply hlen
      have hperm : (GetUploadedChunks s u fileHash).Perm
          ((List.range total.toNat).map (fun n => Int.ofNat n)) := by
        rw [List.perm_ext_iff_of_nodup hnodup (nodup_rangeInts total)]
        intro i
        rw [hiff, mem_rangeInts]
      have hl := hperm.length_eq
      rw [hrangelen] at hl
      rw [hl, intOfNat_eq_cast]
      omega
    refine ⟨?_, fun _ => ⟨by rw [hmr], by rw [hmr],
      fun i => findMissingChunks_mem (GetUploadedChunks s u fileHash) total i⟩,
      fun hcon => absurd hcon.1 hlen⟩
    constructor
    · rintro ⟨v, hv⟩
      rw [hmr] at hv
      exact absurd hv (by simp)
    · intro hiff
      exact absurd hiff hniff

/-- C3 witness: with chunks 0, 1, 3 staged and totalChunks = 4, merge
reports MISSING_CHUNKS with exactly [2] and leaves the state
unchanged. -/
theorem merge_completeness_witness :
    (MergeChunks 1 1 "a.mp4" "h" 4 0 wGappyScratch).2
      = Except.error (MergeError.missingChunks
          (findMissingChunks (GetUploadedChunks wGappyScratch 1 "h") 4)) ∧
    findMissingChunks (GetUploadedChunks wGappyScratch 1 "h") 4 = [2] ∧
    (MergeChunks 1 1 "a.mp4" "h" 4 0 wGappyScratch).1 = wGappyScratch := by
  have h := merge_completeness wGappyScratch 1 1 "a.mp4" "h" 4 0 (by decide) (by decide)
  have h2 := h.2.1 (by decide)
  exact ⟨h2.1, by decide, h2.2.1⟩

/-! ### C1: the dedup refcount invariant -/

/-- C1 counterexample.  A fastUpload against a hash with no FileMeta row
(here: init followed directly by fastUpload, which the API permits)
leaves one COMPLETED UserContent row for hash "h" while no FileMeta row
and no blob exist, so FileMeta(h).refCount (read as 0) differs from the
completed-row count 1 and the blob-existence biconditional fails. -/
theorem dedup_refcount_counterexample :
    ¬ dedupInvariant
        (runOps initState [Op.opInit 1 "a.mp4" "h", Op.opFast 1 1 "a.mp4" "h"]) "h" := by
  decide

theorem inv_initState : Inv initState := by
  decide

theorem inv_implies_dedup (s : SysState) (hinv : Inv s) (fileHash : String) :
    dedupInvariant s fileHash := by
  obtain ⟨hmeta, hcomp, hblobmeta, hmetablob, _⟩ := hinv
  unfold dedupInvariant refCountOf
  cases hfm : findFileMeta s fileHash with
  | some fm =>
    have hfm2 := hfm
    unfold findFileMeta at hfm2
    have hfmm : fm ∈ s.fileMetas := List.mem_of_find?_eq_some hfm2
    have hfh : fm.fileHash = fileHash := by
      have hx := @List.find?_some _ (fun x => x.fileHash == fileHash) fm s.fileMetas hfm2
      rwa [beq_iff_eq] at hx
    obtain ⟨hrc, hrc1, _⟩ := hmeta fm hfmm
    rw [intOfNat_eq_cast] at hrc
    rw [← hfh]
    refine ⟨hrc, ?_⟩
    constructor
    · intro _
      omega
    · intro _
      rw [hfh] at hrc ⊢
      have := hmetablob fm hfmm
      rwa [hfh] at this
  | none =>
    have hcount : completedCount s fileHash = 0 := by
      by_contra hne
      have hpos : 0 < completedCount s fileHash := Nat.pos_of_ne_zero hne
      obtain ⟨r, hr, hp⟩ := List.countP_pos.mp hpos
      simp only [Bool.and_eq_true, beq_iff_eq] at hp
      have := hcomp r hr hp.2
      rw [hp.1, hfm] at this
      exact absurd this (by simp)
    rw [hcount]
    refine ⟨by simp, ?_⟩
    constructor
    · intro hex
      unfold FileExists at hex
      obtain ⟨b, hb, hbp⟩ := List.find?_isSome.mp hex
      rw [beq_iff_eq] at hbp
      have := hblobmeta b hb
      rw [hbp, hfm] at this
      exact absurd this (by simp)
    · intro hcon
      omega

/-- States agreeing on the metadata rows, blobs and tombstones satisfy
the same invariant (scratch and accelerator fields are irrelevant). -/
theorem inv_transport (s t : SysState)
    (hc : t.contents = s.contents) (hu : t.userContents = s.userContents)
    (hf : t.fileMetas = s.fileMetas) (hb : t.blobs = s.blobs)
    (ht : t.tombstones = s.tombstones)
    (hnc : t.nextContentId = s.nextContentId) (hnu : t.nextUserContentId = s.nextUserContentId)
    (hinv : Inv s) : Inv t := by
  unfold Inv completedCount FileExists findFileMeta at hinv ⊢
  rw [hc, hu, hf, hb, ht, hnc, hnu]
  exact hinv

theorem recordUploadedChunk_ms (u : Int) (fileHash : String) (i : Int) (t : SysState) :
    (RecordUploadedChunk u fileHash i t).contents = t.contents ∧
    (RecordUploadedChunk u fileHash i t).userContents = t.userContents ∧
    (RecordUploadedChunk u fileHash i t).fileMetas = t.fileMetas ∧
    (RecordUploadedChunk u fileHash i t).blobs = t.blobs ∧
    (RecordUploadedChunk u fileHash i t).tombstones = t.tombstones ∧
    (RecordUploadedChunk u fileHash i t).nextContentId = t.nextContentId ∧
    (RecordUploadedChunk u fileHash i t).nextUserContentId = t.nextUserContentId := by
  unfold RecordUploadedChunk
  split
  · exact ⟨rfl, rfl, rfl, rfl, rfl, rfl, rfl⟩
  · exact ⟨rfl, rfl, rfl, rfl, rfl, rfl, rfl⟩

theorem inv_step_chunk (u : Int) (fileHash : String) (cid : Nat) (i total : Int)
    (data : List Nat) (s : SysState) (hinv : Inv s) :
    Inv (UploadChunk u fileHash cid i total data s).1 := by
  unfold UploadChunk
  cases hcb : CheckBeforeUploadChunk s u fileHash with
  | some e => exact hinv
  | none =>
    dsimp only
    split
    · exact hinv
    · split
      · exact hinv
      · rename_i s1 heq
        unfold WriteChunk at heq
        split at heq
        · exact absurd heq (by simp)
        · have hs1 := Except.ok.inj heq
          dsimp only
          refine inv_transport s _ ?_ ?_ ?_ ?_ ?_ ?_ ?_ hinv
          · rw [(recordUploadedChunk_ms u fileHash i s1).1, ← hs1]
          · rw [(recordUploadedChunk_ms u fileHash i s1).2.1, ← hs1]
          · rw [(recordUploadedChunk_ms u fileHash i s1).2.2.1, ← hs1]
          · rw [(recordUploadedChunk_ms u fileHash i s1).2.2.2.1, ← hs1]
          · rw [(recordUploadedChunk_ms u fileHash i s1).2.2.2.2.1, ← hs1]
          · rw [(recordUploadedChunk_ms u fileHash i s1).2.2.2.2.2.1, ← hs1]
          · rw [(recordUploadedChunk_ms u fileHash i s1).2.2.2.2.2.2, ← hs1]

theorem two_mem_countP {α : Type} (p : α → Bool) (l : List α) (a b : α)
    (ha : a ∈ l) (hb : b ∈ l) (hne : a ≠ b) (hpa : p a = true) (hpb : p b = true) :
    2 ≤ l.countP p := by
  obtain ⟨l1, l2, rfl⟩ := List.append_of_mem ha
  rw [List.countP_append, List.countP_cons, if_pos hpa]
  rcases List.mem_append.mp hb with hb1 | hb2
  · have h1 : 0 < l1.countP p := List.countP_pos.mpr ⟨b, hb1, hpb⟩
    omega
  · rcases List.mem_cons.mp hb2 with hb3 | hb3
    · exact absurd hb3.symm hne
    · have h2 : 0 < l2.countP p := List.countP_pos.mpr ⟨b, hb3, hpb⟩
      omega

theorem countP_filter_unrelated {α : Type} (p keep : α → Bool) (l : List α)
    (h : ∀ a ∈ l, p a = true → keep a = true) :
    (l.filter keep).countP p = l.countP p := by
  rw [List.countP_filter]
  refine List.countP_congr ?_
  intro a ha
  constructor
  · intro hpk
    rw [Bool.and_eq_true] at hpk
    exact hpk.1
  · intro hp
    rw [Bool.and_eq_true]
    exact ⟨hp, h a ha hp⟩

theorem decomp_by_key {α : Type} (q : α → Bool) (l : List α) (x : α)
    (hmem : x ∈ l) (hqx : q x = true)
    (hpw : List.Pairwise (fun a b => ¬(q a = true ∧ q b = true)) l) :
    ∃ l1 l2, l = l1 ++ x :: l2 ∧ (∀ r ∈ l1, q r = false) ∧ (∀ r ∈ l2, q r = false) := by
  induction l with
  | nil => exact absurd hmem (List.not_mem_nil x)
  | cons y ys ih =>
    have hpc := List.pairwise_cons.mp hpw
    rcases List.mem_cons.mp hmem with hx | hx
    · refine ⟨[], ys, by rw [List.nil_append, hx], fun r hr => absurd hr (List.not_mem_nil r), ?_⟩
      intro r hr
      rw [Bool.eq_false_iff]
      intro hqr
      exact hpc.1 r hr ⟨by rw [← hx]; exact hqx, hqr⟩
    · cases hqy : q y with
      | true => exact absurd ⟨hqy, hqx⟩ (hpc.1 x hx)
      | false =>
        obtain ⟨l1, l2, heq, h1, h2⟩ := ih hx hpc.2
        refine ⟨y :: l1, l2, by rw [List.cons_append, heq], ?_, h2⟩
        intro r hr
        rcases List.mem_cons.mp hr with hr2 | hr2
        · rw [hr2]
          exact hqy
        · exact h1 r hr2

theorem map_update_decomp {α : Type} (q : α → Bool) (f : α → α) (l1 l2 : List α) (x : α)
    (h1 : ∀ r ∈ l1, q r = false) (h2 : ∀ r ∈ l2, q r = false) (hx : q x = true) :
    (l1 ++ x :: l2).map (fun r => if q r then f r else r) = l1 ++ f x :: l2 := by
  rw [List.map_append, map_if_id q f l1 h1, List.map_cons, if_pos hx, map_if_id q f l2 h2]

theorem filter_not_decomp {α : Type} (q : α → Bool) (l1 l2 : List α) (x : α)
    (h1 : ∀ r ∈ l1, q r = false) (h2 : ∀ r ∈ l2, q r = false) (hx : q x = true) :
    (l1 ++ x :: l2).filter (fun r => !(q r)) = l1 ++ l2 := by
  rw [List.filter_append, List.filter_cons]
  have e1 : l1.filter (fun r => !(q r)) = l1 :=
    List.filter_eq_self.mpr (fun a ha => by rw [h1 a ha]; rfl)
  have e2 : l2.filter (fun r => !(q r)) = l2 :=
    List.filter_eq_self.mpr (fun a ha => by rw [h2 a ha]; rfl)
  rw [e1, e2, hx]
  simp

/-- Under the invariant, a user has at most one `user_contents` row per
file hash (rows link to contents unique per (owner, sourceHash)). -/
theorem inv_uc_byhash_unique (s : SysState) (hinv : Inv s) :
    ∀ r1 ∈ s.userContents, ∀ r2 ∈ s.userContents,
      r1.userId = r2.userId → r1.fileHash = r2.fileHash → r1 = r2 := by
  obtain ⟨_, _, _, _, _, ⟨hcid, hcokey, _⟩, ⟨huid, hukey, hulink⟩, _, _⟩ := hinv
  intro r1 h1 r2 h2 hu hh
  by_contra hne
  obtain ⟨ct1, hct1, hct1id, hct1o, hct1h⟩ := (hulink r1 h1).2
  obtain ⟨ct2, hct2, hct2id, hct2o, hct2h⟩ := (hulink r2 h2).2
  have hcteq : ct1 = ct2 := by
    by_contra hctne
    have hsym : Symmetric (fun a b : ContentRow =>
        ¬(a.ownerId = b.ownerId ∧ a.sourceHash = b.sourceHash)) :=
      fun a b hab hba => hab ⟨hba.1.symm, hba.2.symm⟩
    exact (hcokey.forall hsym hct1 hct2 hctne)
      ⟨by rw [hct1o, hct2o, hu], by rw [hct1h, hct2h, hh]⟩
  have hcidid : r1.contentId = r2.contentId := by
    rw [← hct1id, hcteq, hct2id]
  have hsym2 : Symmetric (fun a b : UserContentRow =>
      ¬(a.userId = b.userId ∧ a.contentId = b.contentId)) :=
    fun a b hab hba => hab ⟨hba.1.symm, hba.2.symm⟩
  exact (hukey.forall hsym2 h1 h2 hne) ⟨hu, hcidid⟩

/-- Under the invariant, contents are unique per id at the value level. -/
theorem inv_content_byid_unique (s : SysState) (hinv : Inv s) :
    ∀ c1 ∈ s.contents, ∀ c2 ∈ s.contents, c1.id = c2.id → c1 = c2 := by
  obtain ⟨_, _, _, _, _, ⟨hcid, _, _⟩, _, _, _⟩ := hinv
  intro c1 h1 c2 h2 hid
  by_contra hne
  have hsym : Symmetric (fun a b : ContentRow => a.id ≠ b.id) :=
    fun a b hab => fun hba => hab hba.symm
  exact (hcid.forall hsym h1 h2 hne) hid

theorem find?_filter_of_imp {α : Type} (p k : α → Bool) (l : List α)
    (h : ∀ a ∈ l, p a = true → k a = true) :
    (l.filter k).find? p = l.find? p := by
  induction l with
  | nil => rfl
  | cons x xs ih =>
    have ih2 := ih (fun a ha => h a (List.mem_cons_of_mem x ha))
    cases hk : k x with
    | true =>
      rw [List.filter_cons, if_pos hk]
      cases hp : p x with
      | true => rw [List.find?_cons_of_pos _ hp, List.find?_cons_of_pos _ hp]
      | false => rw [List.find?_cons_of_neg _ (by simp [hp]), List.find?_cons_of_neg _ (by simp [hp])]; exact ih2
    | false =>
      have hp : p x = false := by
        cases hp : p x with
        | false => rfl
        | true => rw [h x (List.mem_cons_self x xs) hp] at hk; exact absurd hk (by simp)
      rw [List.filter_cons, if_neg (by simp [hk]), List.find?_cons_of_neg _ (by simp [hp])]
      exact ih2

/-- Decomposition of the `user_contents` list around the unique row of
`(u, fileHash)`: value-level uniqueness plus id-pairwiseness make the key
predicate hit exactly one position. -/
theorem uc_decomp (s : SysState)
    (huniq : ∀ r1 ∈ s.userContents, ∀ r2 ∈ s.userContents,
      r1.userId = r2.userId → r1.fileHash = r2.fileHash → r1 = r2)
    (hida : List.Pairwise (fun a b => a.id ≠ b.id) s.userContents)
    (u : Int) (fileHash : String) (uc0 : UserContentRow)
    (hmem : uc0 ∈ s.userContents) (hu : uc0.userId = u) (hh : uc0.fileHash = fileHash) :
    ∃ l1 l2, s.userContents = l1 ++ uc0 :: l2 ∧
      (∀ r ∈ l1, (r.userId == u && r.fileHash == fileHash) = false) ∧
      (∀ r ∈ l2, (r.userId == u && r.fileHash == fileHash) = false) := by
  refine decomp_by_key (fun r => r.userId == u && r.fileHash == fileHash)
    s.userContents uc0 hmem ?_ ?_
  · rw [Bool.and_eq_true, beq_iff_eq, beq_iff_eq]
    exact ⟨hu, hh⟩
  · refine hida.imp_of_mem ?_
    intro a b ha hb hab hq
    obtain ⟨hqa, hqb⟩ := hq
    rw [Bool.and_eq_true, beq_iff_eq, beq_iff_eq] at hqa hqb
    exact hab (congrArg UserContentRow.id
      (huniq a ha b hb (by rw [hqa.1, hqb.1]) (by rw [hqa.2, hqb.2])))

/-- With hash-pairwise `file_metas`, any member carrying the looked-up
hash is the row `find?` returned. -/
theorem meta_eq_found (s : SysState)
    (hpw : List.Pairwise (fun a b => a.fileHash ≠ b.fileHash) s.fileMetas)
    (fileHash : String) (fm0 fm : FileMetaRow)
    (hfind : findFileMeta s fileHash = some fm0)
    (hmem : fm ∈ s.fileMetas) (hh : fm.fileHash = fileHash) : fm = fm0 := by
  unfold findFileMeta at hfind
  have hm0 : fm0 ∈ s.fileMetas := List.mem_of_find?_eq_some hfind
  have hh0 : fm0.fileHash = fileHash := by
    have hx := @List.find?_some _ (fun x => x.fileHash == fileHash) fm0 s.fileMetas hfind
    rwa [beq_iff_eq] at hx
  by_contra hne
  have hsym : Symmetric (fun a b : FileMetaRow => a.fileHash ≠ b.fileHash) :=
    fun a b hab => fun hba => hab hba.symm
  exact (hpw.forall hsym hmem hm0 hne) (by rw [hh, hh0])

theorem isSome_map_opt {α β : Type} (f : α → β) (o : Option α) :
    (o.map f).isSome = o.isSome := by
  cases o <;> rfl

/-- Constructor-shaped interface for `Inv`: every component stated over
the raw field lists, so the preservation proofs can reason about explicit
list expressions. -/
theorem inv_build (cs : List ContentRow) (ucs : List UserContentRow)
    (fms : List FileMetaRow) (nci nuci : Nat) (bs : List (String × List Nat))
    (sc : List ScratchChunk) (tss : List TombstoneRow)
    (cc : List (Int × String × Int))
    (h1 : ∀ fm ∈ fms, fm.refCount = Int.ofNat (ucs.countP
        (fun r => r.fileHash == fm.fileHash && r.status == 1)) ∧
        1 ≤ fm.refCount ∧ fm.filePath = getFilePath fm.fileHash)
    (h2 : ∀ uc ∈ ucs, uc.status = 1 →
        (fms.find? (fun fm => fm.fileHash == uc.fileHash)).isSome = true)
    (h3 : ∀ b ∈ bs, (fms.find? (fun fm => fm.fileHash == b.1)).isSome = true)
    (h4 : ∀ fm ∈ fms, (bs.find? (fun b => b.1 == fm.fileHash)).isSome = true)
    (h5 : List.Pairwise (fun a b => a.fileHash ≠ b.fileHash) fms)
    (h6a : List.Pairwise (fun a b => a.id ≠ b.id) cs)
    (h6b : List.Pairwise (fun a b => ¬(a.ownerId = b.ownerId ∧ a.sourceHash = b.sourceHash)) cs)
    (h6c : ∀ ct ∈ cs, 1 ≤ ct.id ∧ ct.id < nci)
    (h6d : 1 ≤ nci)
    (h7a : List.Pairwise (fun a b => a.id ≠ b.id) ucs)
    (h7b : List.Pairwise (fun a b => ¬(a.userId = b.userId ∧ a.contentId = b.contentId)) ucs)
    (h7c : ∀ uc ∈ ucs, uc.id < nuci ∧ ∃ ct ∈ cs, ct.id = uc.contentId ∧
        ct.ownerId = uc.userId ∧ ct.sourceHash = uc.fileHash)
    (h8 : ∀ uc ∈ ucs, uc.status = 0 ∨ uc.status = 1)
    (h9 : ∀ ts ∈ tss, ts.status = "completed" ∧
        (bs.find? (fun b => b.1 == ts.fileHash)).isSome = true ∧ 1 ≤ ts.contentId ∧
        ∃ uc ∈ ucs, uc.userId = ts.userId ∧ uc.fileHash = ts.fileHash ∧ uc.status = 1) :
    Inv { contents := cs, userContents := ucs, fileMetas := fms,
          nextContentId := nci, nextUserContentId := nuci, blobs := bs,
          scratch := sc, tombstones := tss, csChunks := cc } :=
  ⟨h1, h2, h3, h4, h5, ⟨h6a, h6b, h6c, h6d⟩, ⟨h7a, h7b, h7c⟩, h8, h9⟩

theorem inv_step_delete (u : Int) (fileHash : String) (s : SysState)
    (hinv : Inv s) (hwf : wfOp s (Op.opDelete u fileHash) = true) :
    Inv (DeleteFile u fileHash s) := by
  have huniq := inv_uc_byhash_unique s hinv
  obtain ⟨hI1, hI2, hI3, hI4, hI5, ⟨hI6a, hI6b, hI6c, hI6d⟩, ⟨hI7a, hI7b, hI7c⟩, hI8, hI9⟩ := hinv
  unfold wfOp at hwf
  cases hfm : findFileMeta s fileHash with
  | none =>
    have hno : ∀ r ∈ s.userContents, r.status = 1 → (r.fileHash == fileHash) = false := by
      intro r hr hst
      rw [beq_eq_false_iff_ne]
      intro hh
      have h2 := hI2 r hr hst
      rw [hh, hfm] at h2
      exact absurd h2 (by simp)
    have hkeepC : ∀ r ∈ s.userContents, r.status = 1 →
        (!(r.userId == u && r.fileHash == fileHash)) = true := by
      intro r hr hst
      rw [hno r hr hst, Bool.and_false]
      rfl
    have hcnt : ∀ h2 : String,
        (s.userContents.filter
          (fun r => !(r.userId == u && r.fileHash == fileHash))).countP
          (fun r => r.fileHash == h2 && r.status == 1) = completedCount s h2 := by
      intro h2
      refine countP_filter_unrelated _ _ _ ?_
      intro a ha hp
      rw [Bool.and_eq_true, beq_iff_eq, beq_iff_eq] at hp
      exact hkeepC a ha hp.2
    have hfmu : s.fileMetas.find? (fun fm => fm.fileHash == fileHash) = none := hfm
    unfold DeleteFile DeleteUserFile DeleteTombstone eraseTombstone
    simp only [findFileMeta]
    simp only [hfmu]
    refine inv_build _ _ _ _ _ _ _ _ _ ?_ ?_ ?_ ?_ ?_ ?_ ?_ ?_ ?_ ?_ ?_ ?_ ?_ ?_
    · intro fm hm
      obtain ⟨ha, hb, hc⟩ := hI1 fm hm
      refine ⟨?_, hb, hc⟩
      rw [hcnt fm.fileHash]
      exact ha
    · intro uc hm hst
      exact hI2 uc (List.mem_filter.mp hm).1 hst
    · intro b hm
      exact hI3 b hm
    · intro fm hm
      exact hI4 fm hm
    · exact hI5
    · exact hI6a
    · exact hI6b
    · exact hI6c
    · exact hI6d
    · exact List.Pairwise.sublist (List.filter_sublist _) hI7a
    · exact List.Pairwise.sublist (List.filter_sublist _) hI7b
    · intro uc hm
      exact hI7c uc (List.mem_filter.mp hm).1
    · intro uc hm
      exact hI8 uc (List.mem_filter.mp hm).1
    · intro ts hm
      obtain ⟨ha, hb, hc, uct, hmt, hut, hht, hstt⟩ := hI9 ts (List.mem_filter.mp hm).1
      exact ⟨ha, hb, hc, uct, List.mem_filter.mpr ⟨hmt, hkeepC uct hmt hstt⟩, hut, hht, hstt⟩
  | some fm0 =>
    simp only [hfm] at hwf
    cases huc : findUserContentByHash s u fileHash with
    | none =>
      simp only [huc] at hwf
      exact absurd hwf (by simp)
    | some uc0 =>
      simp only [huc] at hwf
      have hst0 : uc0.status = 1 := by rwa [beq_iff_eq] at hwf
      have huc' := huc
      unfold findUserContentByHash at huc'
      have hmem0 : uc0 ∈ s.userContents := List.mem_of_find?_eq_some huc'
      have hpred0 := @List.find?_some _
        (fun r => r.userId == u && r.fileHash == fileHash) uc0 s.userContents huc'
      rw [Bool.and_eq_true, beq_iff_eq, beq_iff_eq] at hpred0
      obtain ⟨hu0, hh0⟩ := hpred0
      have hfm' := hfm
      unfold findFileMeta at hfm'
      have hmemf : fm0 ∈ s.fileMetas := List.mem_of_find?_eq_some hfm'
      have hhf : fm0.fileHash = fileHash := by
        have hx := @List.find?_some _ (fun x => x.fileHash == fileHash) fm0 s.fileMetas hfm'
        rwa [beq_iff_eq] at hx
      obtain ⟨hrcA, hrcB, hpathA⟩ := hI1 fm0 hmemf
      rw [hhf] at hrcA
      obtain ⟨l1, l2, hdec, hl1, hl2⟩ := uc_decomp s huniq hI7a u fileHash uc0 hmem0 hu0 hh0
      have hq0 : (uc0.userId == u && uc0.fileHash == fileHash) = true := by
        rw [Bool.and_eq_true, beq_iff_eq, beq_iff_eq]
        exact ⟨hu0, hh0⟩
      have hF : s.userContents.filter (fun r => !(r.userId == u && r.fileHash == fileHash))
          = l1 ++ l2 := by
        rw [hdec]
        exact filter_not_decomp _ l1 l2 uc0 hl1 hl2 hq0
      have hcnt_ne : ∀ h2 : String, h2 ≠ fileHash →
          (l1 ++ l2).countP (fun r => r.fileHash == h2 && r.status == 1)
            = completedCount s h2 := by
        intro h2 hne
        have hcc : completedCount s h2 =
            (l1 ++ uc0 :: l2).countP (fun r => r.fileHash == h2 && r.status == 1) := by
          unfold completedCount
          rw [hdec]
        have hp0 : (uc0.fileHash == h2 && uc0.status == 1) = false := by
          rw [hh0, (beq_eq_false_iff_ne).mpr (fun he => hne he.symm), Bool.false_and]
        rw [hcc, List.countP_append, List.countP_append, List.countP_cons]
        simp only [hp0, Bool.false_eq_true, if_false]
        omega
      have hcnt_eq :
          (l1 ++ l2).countP (fun r => r.fileHash == fileHash && r.status == 1) + 1
            = completedCount s fileHash := by
        have hcc : completedCount s fileHash =
            (l1 ++ uc0 :: l2).countP (fun r => r.fileHash == fileHash && r.status == 1) := by
          unfold completedCount
          rw [hdec]
        have hp0 : (uc0.fileHash == fileHash && uc0.status == 1) = true := by
          simp [hh0, hst0]
        rw [hcc, List.countP_append, List.countP_append, List.countP_cons]
        simp only [hp0, if_true]
        omega
      have hpres : ∀ h2 : String, ∀ a ∈ s.fileMetas,
          ((if a.fileHash == fileHash
            then { a with refCount := max (a.refCount - 1) 0 } else a).fileHash == h2)
            = (a.fileHash == h2) := by
        intro h2 a _
        by_cases hc : (a.fileHash == fileHash) = true
        · simp [hc]
        · simp [hc]
      have hmapfind : ∀ h2 : String,
          (s.fileMetas.map (fun fm => if fm.fileHash == fileHash
              then { fm with refCount := max (fm.refCount - 1) 0 } else fm)).find?
            (fun fm => fm.fileHash == h2)
          = (s.fileMetas.find? (fun fm => fm.fileHash == h2)).map
              (fun fm => if fm.fileHash == fileHash
                then { fm with refCount := max (fm.refCount - 1) 0 } else fm) := by
        intro h2
        exact find?_map_pred _ _ _ (hpres h2)
      have hfmu : s.fileMetas.find? (fun fm => fm.fileHash == fileHash) = some fm0 := hfm
      have hmap : (s.fileMetas.map (fun fm => if fm.fileHash == fileHash
            then { fm with refCount := max (fm.refCount - 1) 0 } else fm)).find?
          (fun fm => fm.fileHash == fileHash)
          = some { fm0 with refCount := max (fm0.refCount - 1) 0 } := by
        rw [hmapfind fileHash, hfmu, Option.map_some']
        rw [if_pos (by rw [hhf]; exact beq_self_eq_true fileHash)]
      have hpe : (fm0.filePath == "") = false := by
        rw [hpathA]
        exact getFilePath_ne_empty fm0.fileHash
      unfold DeleteFile DeleteUserFile DeleteTombstone eraseTombstone
      simp only [findFileMeta]
      simp only [hfmu, hmap]
      split
      · -- refCount dropped to 0: meta row and blob are removed
        rename_i hle
        have hle' : max (fm0.refCount - 1) 0 ≤ 0 := hle
        have hn1 : completedCount s fileHash = 1 := by
          rw [intOfNat_eq_cast] at hrcA
          omega
        have hF0 : (l1 ++ l2).countP
            (fun r => r.fileHash == fileHash && r.status == 1) = 0 := by
          omega
        split
        · rename_i hpp
          have h1 : (fm0.filePath == "") = true := hpp
          rw [hpe] at h1
          exact absurd h1 (by simp)
        · rename_i hpp
          dsimp only
          have hchar : ∀ fmx, fmx ∈ (s.fileMetas.map (fun fm => if fm.fileHash == fileHash
                then { fm with refCount := max (fm.refCount - 1) 0 } else fm)).filter
                (fun fm => !(fm.fileHash == fileHash)) →
              fmx ∈ s.fileMetas ∧ fmx.fileHash ≠ fileHash := by
            intro fmx hmx
            have h1 := (List.mem_filter.mp hmx).1
            have h2 := (List.mem_filter.mp hmx).2
            rw [Bool.not_eq_eq_eq_not, Bool.not_true] at h2
            have hne : fmx.fileHash ≠ fileHash := (beq_eq_false_iff_ne).mp h2
            obtain ⟨a, hamem, heq⟩ := List.mem_map.mp h1
            by_cases hc : (a.fileHash == fileHash) = true
            · rw [if_pos hc] at heq
              exfalso
              apply hne
              rw [← heq]
              exact beq_iff_eq.mp hc
            · rw [if_neg hc] at heq
              exact ⟨heq ▸ hamem, hne⟩
          have hfind3 : ∀ h2 : String, h2 ≠ fileHash →
              ((s.fileMetas.map (fun fm => if fm.fileHash == fileHash
                  then { fm with refCount := max (fm.refCount - 1) 0 } else fm)).filter
                (fun fm => !(fm.fileHash == fileHash))).find? (fun fm => fm.fileHash == h2)
              = (s.fileMetas.find? (fun fm => fm.fileHash == h2)).map
                  (fun fm => if fm.fileHash == fileHash
                    then { fm with refCount := max (fm.refCount - 1) 0 } else fm) := by
            intro h2 hne
            rw [find?_filter_of_imp _ _ _ ?_, hmapfind h2]
            intro a _ hp
            rw [beq_iff_eq] at hp
            have hx : (a.fileHash == fileHash) = false := by
              rw [hp]
              exact (beq_eq_false_iff_ne).mpr hne
            rw [hx]
            rfl
          have hblob3 : ∀ h2 : String, h2 ≠ fileHash →
              (s.blobs.filter (fun b => !(getFilePath b.1 == fm0.filePath))).find?
                (fun b => b.1 == h2)
              = s.blobs.find? (fun b => b.1 == h2) := by
            intro h2 hne
            refine find?_filter_of_imp _ _ _ ?_
            intro a _ hp
            rw [beq_iff_eq] at hp
            have hx : (getFilePath a.1 == fm0.filePath) = false := by
              rw [beq_eq_false_iff_ne, hp, hpathA]
              intro hco
              have h3 := getFilePath_inj hco
              rw [hhf] at h3
              exact hne h3
            rw [hx]
            rfl
          refine inv_build _ _ _ _ _ _ _ _ _ ?_ ?_ ?_ ?_ ?_ ?_ ?_ ?_ ?_ ?_ ?_ ?_ ?_ ?_
          · intro fmx hmx
            obtain ⟨hmx', hnex⟩ := hchar fmx hmx
            obtain ⟨ha, hb, hc⟩ := hI1 fmx hmx'
            refine ⟨?_, hb, hc⟩
            rw [hF, hcnt_ne fmx.fileHash hnex]
            exact ha
          · intro uc hm hst
            have hm1 : uc ∈ s.userContents := (List.mem_filter.mp hm).1
            by_cases hne : uc.fileHash = fileHash
            · exfalso
              have hmF : uc ∈ l1 ++ l2 := hF ▸ hm
              have hp : (uc.fileHash == fileHash && uc.status == 1) = true := by
                rw [Bool.and_eq_true, beq_iff_eq, beq_iff_eq]
                exact ⟨hne, hst⟩
              have hpos : 0 < (l1 ++ l2).countP
                  (fun r => r.fileHash == fileHash && r.status == 1) :=
                List.countP_pos.mpr ⟨uc, hmF, hp⟩
              omega
            · rw [hfind3 uc.fileHash hne, isSome_map_opt]
              exact hI2 uc hm1 hst
          · intro b hm
            have hb1 : b ∈ s.blobs := (List.mem_filter.mp hm).1
            have hbk := (List.mem_filter.mp hm).2
            rw [Bool.not_eq_eq_eq_not, Bool.not_true] at hbk
            have hne : b.1 ≠ fileHash := by
              intro he
              have hx : (getFilePath b.1 == fm0.filePath) = true := by
                rw [he, hpathA, hhf]
                exact beq_self_eq_true _
              rw [hbk] at hx
              exact absurd hx (by simp)
            rw [hfind3 b.1 hne, isSome_map_opt]
            exact hI3 b hb1
          · intro fmx hmx
            obtain ⟨hmx', hnex⟩ := hchar fmx hmx
            rw [hblob3 fmx.fileHash hnex]
            exact hI4 fmx hmx'
          · refine List.Pairwise.sublist (List.filter_sublist _) ?_
            rw [List.pairwise_map]
            refine hI5.imp ?_
            intro a b hab
            have ga : (if a.fileHash == fileHash
                then { a with refCount := max (a.refCount - 1) 0 } else a).fileHash
                = a.fileHash := by
              split <;> rfl
            have gb : (if b.fileHash == fileHash
                then { b with refCount := max (b.refCount - 1) 0 } else b).fileHash
                = b.fileHash := by
              split <;> rfl
            rw [ga, gb]
            exact hab
          · exact hI6a
          · exact hI6b
          · exact hI6c
          · exact hI6d
          · exact List.Pairwise.sublist (List.filter_sublist _) hI7a
          · exact List.Pairwise.sublist (List.filter_sublist _) hI7b
          · intro uc hm
            exact hI7c uc (List.mem_filter.mp hm).1
          · intro uc hm
            exact hI8 uc (List.mem_filter.mp hm).1
          · intro ts hm
            have hmt := (List.mem_filter.mp hm).1
            have hkt := (List.mem_filter.mp hm).2
            rw [Bool.not_eq_eq_eq_not, Bool.not_true] at hkt
            obtain ⟨ha, hb, hc, uct, hmemt, hut, hht, hstt⟩ := hI9 ts hmt
            have hne : ts.fileHash ≠ fileHash := by
              intro he
              have hune : (ts.userId == u) = false := by
                cases hq : (ts.userId == u) with
                | false => rfl
                | true =>
                  rw [hq, he, beq_self_eq_true] at hkt
                  exact absurd hkt (by simp)
              have hmF : uct ∈ l1 ++ l2 := by
                rw [← hF]
                refine List.mem_filter.mpr ⟨hmemt, ?_⟩
                have hx : (uct.userId == u) = false := by
                  rw [hut]
                  exact hune
                rw [hx, Bool.false_and]
                rfl
              have hp : (uct.fileHash == fileHash && uct.status == 1) = true := by
                rw [Bool.and_eq_true, beq_iff_eq, beq_iff_eq]
                exact ⟨by rw [hht, he], hstt⟩
              have hpos : 0 < (l1 ++ l2).countP
                  (fun r => r.fileHash == fileHash && r.status == 1) :=
                List.countP_pos.mpr ⟨uct, hmF, hp⟩
              omega
            refine ⟨ha, ?_, hc, uct, ?_, hut, hht, hstt⟩
            · rw [hblob3 ts.fileHash hne]
              exact hb
            · refine List.mem_filter.mpr ⟨hmemt, ?_⟩
              have hx : (uct.fileHash == fileHash) = false := by
                rw [hht]
                exact (beq_eq_false_iff_ne).mpr hne
              rw [hx, Bool.and_false]
              rfl
      · -- refCount still positive: meta stays, blob stays
        rename_i hgt
        have hgt' : ¬(max (fm0.refCount - 1) 0 ≤ 0) := hgt
        dsimp only
        refine inv_build _ _ _ _ _ _ _ _ _ ?_ ?_ ?_ ?_ ?_ ?_ ?_ ?_ ?_ ?_ ?_ ?_ ?_ ?_
        · intro fmx hmx
          obtain ⟨a, hamem, heq⟩ := List.mem_map.mp hmx
          by_cases hc2 : (a.fileHash == fileHash) = true
          · have haeq : a = fm0 :=
              meta_eq_found s hI5 fileHash fm0 a hfm hamem (beq_iff_eq.mp hc2)
            rw [if_pos hc2, haeq] at heq
            have hxh : fmx.fileHash = fm0.fileHash := by rw [← heq]
            have hxrc : fmx.refCount = max (fm0.refCount - 1) 0 := by rw [← heq]
            have hxpath : fmx.filePath = fm0.filePath := by rw [← heq]
            refine ⟨?_, ?_, ?_⟩
            · rw [hxrc, hxh, hhf, hF]
              rw [intOfNat_eq_cast] at hrcA ⊢
              omega
            · rw [hxrc]
              omega
            · rw [hxpath, hxh]
              exact hpathA
          · rw [if_neg hc2] at heq
            obtain ⟨ha, hb, hcc⟩ := hI1 a hamem
            have hanex : a.fileHash ≠ fileHash := fun he => hc2 ((beq_iff_eq).mpr he)
            rw [← heq]
            refine ⟨?_, hb, hcc⟩
            rw [hF, hcnt_ne a.fileHash hanex]
            exact ha
        · intro uc hm hst
          rw [hmapfind uc.fileHash, isSome_map_opt]
          exact hI2 uc (List.mem_filter.mp hm).1 hst
        · intro b hm
          rw [hmapfind b.1, isSome_map_opt]
          exact hI3 b hm
        · intro fmx hmx
          obtain ⟨a, hamem, heq⟩ := List.mem_map.mp hmx
          have hxh : fmx.fileHash = a.fileHash := by
            by_cases hc2 : (a.fileHash == fileHash) = true
            · rw [if_pos hc2] at heq
              rw [← heq]
            · rw [if_neg hc2] at heq
              rw [← heq]
          rw [hxh]
          exact hI4 a hamem
        · rw [List.pairwise_map]
          refine hI5.imp ?_
          intro a b hab
          have ga : (if a.fileHash == fileHash
              then { a with refCount := max (a.refCount - 1) 0 } else a).fileHash
              = a.fileHash := by
            split <;> rfl
          have gb : (if b.fileHash == fileHash
              then { b with refCount := max (b.refCount - 1) 0 } else b).fileHash
              = b.fileHash := by
            split <;> rfl
          rw [ga, gb]
          exact hab
        · exact hI6a
        · exact hI6b
        · exact hI6c
        · exact hI6d
        · exact List.Pairwise.sublist (List.filter_sublist _) hI7a
        · exact List.Pairwise.sublist (List.filter_sublist _) hI7b
        · intro uc hm
          exact hI7c uc (List.mem_filter.mp hm).1
        · intro uc hm
          exact hI8 uc (List.mem_filter.mp hm).1
        · intro ts hm
          have hmt := (List.mem_filter.mp hm).1
          have hkt := (List.mem_filter.mp hm).2
          rw [Bool.not_eq_eq_eq_not, Bool.not_true] at hkt
          obtain ⟨ha, hb, hc, uct, hmemt, hut, hht, hstt⟩ := hI9 ts hmt
          refine ⟨ha, hb, hc, uct, ?_, hut, hht, hstt⟩
          refine List.mem_filter.mpr ⟨hmemt, ?_⟩
          by_cases hcase : ts.fileHash = fileHash
          · have hune : (ts.userId == u) = false := by
              cases hq : (ts.userId == u) with
              | false => rfl
              | true =>
                rw [hq, hcase, beq_self_eq_true] at hkt
                exact absurd hkt (by simp)
            have hx : (uct.userId == u) = false := by
              rw [hut]
              exact hune
            rw [hx, Bool.false_and]
            rfl
          · have hx : (uct.fileHash == fileHash) = false := by
              rw [hht]
              exact (beq_eq_false_iff_ne).mpr hcase
            rw [hx, Bool.and_false]
            rfl

theorem pairwise_update_middle {α : Type} (R : α → α → Prop) (l1 l2 : List α) (x y : α)
    (hpw : List.Pairwise R (l1 ++ x :: l2))
    (hxy1 : ∀ a, R a x → R a y) (hxy2 : ∀ a, R x a → R y a) :
    List.Pairwise R (l1 ++ y :: l2) := by
  rw [List.pairwise_append] at hpw ⊢
  obtain ⟨h1, h2, h3⟩ := hpw
  rw [List.pairwise_cons] at h2 ⊢
  refine ⟨h1, ⟨?_, h2.2⟩, ?_⟩
  · intro b hb
    exact hxy2 b (h2.1 b hb)
  · intro a ha b hb
    rcases List.mem_cons.mp hb with hb1 | hb2
    · rw [hb1]
      exact hxy1 a (h3 a ha x (List.mem_cons_self x l2))
    · exact h3 a ha b (List.mem_cons_of_mem x hb2)

theorem inv_step_fast (u : Int) (cid : Nat) (fileName fileHash : String) (s : SysState)
    (hinv : Inv s) (hwf : wfOp s (Op.opFast u cid fileName fileHash) = true) :
    Inv (FastUpload u cid fileName fileHash s).1 := by
  have huniq := inv_uc_byhash_unique s hinv
  have hcuniq := inv_content_byid_unique s hinv
  obtain ⟨hI1, hI2, hI3, hI4, hI5, ⟨hI6a, hI6b, hI6c, hI6d⟩, ⟨hI7a, hI7b, hI7c⟩, hI8, hI9⟩ := hinv
  unfold wfOp at hwf
  rw [Bool.and_eq_true] at hwf
  obtain ⟨hwf1, hwf2⟩ := hwf
  cases hct : findContentByOwnerHash s fileHash u with
  | none =>
    rw [hct] at hwf1
    exact absurd hwf1 (by simp)
  | some ct =>
  simp only [hct] at hwf1
  rw [Bool.and_eq_true] at hwf1
  obtain ⟨hcidb, hwf1b⟩ := hwf1
  have hcideq : cid = ct.id := beq_iff_eq.mp hcidb
  cases hu : findUserContent s u ct.id with
  | none =>
    simp only [hu] at hwf1b
    exact absurd hwf1b (by simp)
  | some uc =>
  simp only [hu] at hwf1b
  have hucne1 : (uc.status == 1) = false := by
    simp only [Bool.not_eq_eq_eq_not, Bool.not_true] at hwf1b
    exact hwf1b
  have hct' := hct
  unfold findContentByOwnerHash at hct'
  have hctmem : ct ∈ s.contents := List.mem_of_find?_eq_some hct'
  have hctpred := @List.find?_some _
    (fun c => c.sourceHash == fileHash && c.ownerId == u) ct s.contents hct'
  rw [Bool.and_eq_true, beq_iff_eq, beq_iff_eq] at hctpred
  obtain ⟨hcthash, hctown⟩ := hctpred
  have hu' := hu
  unfold findUserContent at hu'
  have hmemuc : uc ∈ s.userContents := List.mem_of_find?_eq_some hu'
  have hupred := @List.find?_some _
    (fun r => r.userId == u && r.contentId == ct.id) uc s.userContents hu'
  rw [Bool.and_eq_true, beq_iff_eq, beq_iff_eq] at hupred
  obtain ⟨huuid, hucid⟩ := hupred
  have hust0 : uc.status = 0 := by
    rcases hI8 uc hmemuc with h0 | h1
    · exact h0
    · rw [h1] at hucne1
      exact absurd hucne1 (by simp)
  have huch : uc.fileHash = fileHash := by
    obtain ⟨_, ct2, hct2mem, hct2id, hct2own, hct2hash⟩ := hI7c uc hmemuc
    have hctid2 : ct2.id = ct.id := by rw [hct2id, hucid]
    have hcteq : ct2 = ct := hcuniq ct2 hct2mem ct hctmem hctid2
    rw [hcteq] at hct2hash
    rw [← hct2hash]
    exact hcthash
  cases hfm : findFileMeta s fileHash with
  | none =>
    rw [hfm] at hwf2
    exact absurd hwf2 (by simp)
  | some fm0 =>
  have hfm' := hfm
  unfold findFileMeta at hfm'
  have hmemf : fm0 ∈ s.fileMetas := List.mem_of_find?_eq_some hfm'
  have hhf : fm0.fileHash = fileHash := by
    have hx := @List.find?_some _ (fun x => x.fileHash == fileHash) fm0 s.fileMetas hfm'
    rwa [beq_iff_eq] at hx
  obtain ⟨hrcA, hrcB, hpathA⟩ := hI1 fm0 hmemf
  rw [hhf] at hrcA
  have hqpw : List.Pairwise (fun a b : UserContentRow =>
      ¬((a.id == uc.id) = true ∧ (b.id == uc.id) = true)) s.userContents := by
    refine hI7a.imp ?_
    intro a b hab hq
    obtain ⟨hqa, hqb⟩ := hq
    rw [beq_iff_eq] at hqa hqb
    rw [hqa, hqb] at hab
    exact hab rfl
  obtain ⟨l1, l2, hdec, hl1, hl2⟩ :=
    decomp_by_key (fun r => r.id == uc.id) s.userContents uc hmemuc
      (beq_self_eq_true uc.id) hqpw
  have hMap : s.userContents.map
      (fun r => if r.id == uc.id then { r with status := 1, fileName := fileName } else r)
      = l1 ++ { uc with status := 1, fileName := fileName } :: l2 := by
    rw [hdec]
    exact map_update_decomp _ _ l1 l2 uc hl1 hl2 (beq_self_eq_true uc.id)
  have hcnt_ne : ∀ h2 : String, h2 ≠ fileHash →
      (l1 ++ { uc with status := 1, fileName := fileName } :: l2).countP
        (fun r => r.fileHash == h2 && r.status == 1)
      = completedCount s h2 := by
    intro h2 hne
    have hcc : completedCount s h2 =
        (l1 ++ uc :: l2).countP (fun r => r.fileHash == h2 && r.status == 1) := by
      unfold completedCount
      rw [hdec]
    have hp1 : (({ uc with status := 1, fileName := fileName } : UserContentRow).fileHash == h2
        && ({ uc with status := 1, fileName := fileName } : UserContentRow).status == 1)
        = false := by
      show (uc.fileHash == h2 && ((1 : Int) == 1)) = false
      have hx : (uc.fileHash == h2) = false := by
        rw [huch]
        exact (beq_eq_false_iff_ne).mpr (fun he => hne he.symm)
      rw [hx, Bool.false_and]
    have hp0 : (uc.fileHash == h2 && uc.status == 1) = false := by
      have hx : (uc.status == 1) = false := by
        rw [hust0]
        rfl
      rw [hx, Bool.and_false]
    rw [hcc, List.countP_append, List.countP_append, List.countP_cons, List.countP_cons]
    simp only [hp1, hp0, Bool.false_eq_true, if_false]
  have hcnt_at :
      (l1 ++ { uc with status := 1, fileName := fileName } :: l2).countP
        (fun r => r.fileHash == fileHash && r.status == 1)
      = completedCount s fileHash + 1 := by
    have hcc : completedCount s fileHash =
        (l1 ++ uc :: l2).countP (fun r => r.fileHash == fileHash && r.status == 1) := by
      unfold completedCount
      rw [hdec]
    have hp1 : (({ uc with status := 1, fileName := fileName } : UserContentRow).fileHash == fileHash
        && ({ uc with status := 1, fileName := fileName } : UserContentRow).status == 1)
        = true := by
      show (uc.fileHash == fileHash && ((1 : Int) == 1)) = true
      rw [huch]
      simp
    have hp0 : (uc.fileHash == fileHash && uc.status == 1) = false := by
      have hx : (uc.status == 1) = false := by
        rw [hust0]
        rfl
      rw [hx, Bool.and_false]
    rw [hcc, List.countP_append, List.countP_append, List.countP_cons, List.countP_cons]
    simp only [hp1, hp0, Bool.false_eq_true, if_false, if_true]
    omega
  have hpres : ∀ h2 : String, ∀ a ∈ s.fileMetas,
      ((if a.fileHash == fileHash
        then { a with refCount := a.refCount + 1 } else a).fileHash == h2)
        = (a.fileHash == h2) := by
    intro h2 a _
    by_cases hc : (a.fileHash == fileHash) = true
    · simp [hc]
    · simp [hc]
  have hmapfind : ∀ h2 : String,
      (s.fileMetas.map (fun fm => if fm.fileHash == fileHash
          then { fm with refCount := fm.refCount + 1 } else fm)).find?
        (fun fm => fm.fileHash == h2)
      = (s.fileMetas.find? (fun fm => fm.fileHash == h2)).map
          (fun fm => if fm.fileHash == fileHash
            then { fm with refCount := fm.refCount + 1 } else fm) := by
    intro h2
    exact find?_map_pred _ _ _ (hpres h2)
  have hsomec : (s.contents.find? (fun c => c.id == cid && c.ownerId == u)).isSome = true := by
    refine List.find?_isSome.mpr ⟨ct, hctmem, ?_⟩
    rw [Bool.and_eq_true, beq_iff_eq, beq_iff_eq]
    exact ⟨hcideq.symm, hctown⟩
  cases hfc : s.contents.find? (fun c => c.id == cid && c.ownerId == u) with
  | none =>
    rw [hfc] at hsomec
    exact absurd hsomec (by simp)
  | some ctf =>
  have hucu : s.userContents.find? (fun r => r.userId == u && r.contentId == cid)
      = some uc := by
    rw [hcideq]
    exact hu'
  unfold FastUpload CreateUserFileForFastUpload CreateTombstone eraseTombstone
  simp only [findContentById, findUserContent, findFileMeta]
  simp only [hfc, hucu]
  refine inv_build _ _ _ _ _ _ _ _ _ ?_ ?_ ?_ ?_ ?_ ?_ ?_ ?_ ?_ ?_ ?_ ?_ ?_ ?_
  · intro fmx hmx
    rw [hMap]
    obtain ⟨a, hamem, heq⟩ := List.mem_map.mp hmx
    by_cases hc2 : (a.fileHash == fileHash) = true
    · have haeq : a = fm0 := meta_eq_found s hI5 fileHash fm0 a hfm hamem (beq_iff_eq.mp hc2)
      rw [if_pos hc2, haeq] at heq
      have hxh : fmx.fileHash = fm0.fileHash := by rw [← heq]
      have hxrc : fmx.refCount = fm0.refCount + 1 := by rw [← heq]
      have hxpath : fmx.filePath = fm0.filePath := by rw [← heq]
      refine ⟨?_, ?_, ?_⟩
      · rw [hxrc, hxh, hhf, hcnt_at]
        rw [intOfNat_eq_cast] at hrcA ⊢
        omega
      · rw [hxrc]
        omega
      · rw [hxpath, hxh]
        exact hpathA
    · rw [if_neg hc2] at heq
      obtain ⟨ha, hb, hcc2⟩ := hI1 a hamem
      have hanex : a.fileHash ≠ fileHash := fun he => hc2 ((beq_iff_eq).mpr he)
      rw [← heq]
      refine ⟨?_, hb, hcc2⟩
      rw [hcnt_ne a.fileHash hanex]
      exact ha
  · intro ucx hm hst
    rw [hmapfind ucx.fileHash, isSome_map_opt]
    have hm2 : ucx ∈ l1 ++ { uc with status := 1, fileName := fileName } :: l2 := hMap ▸ hm
    have hgoal : (s.fileMetas.find? (fun fm => fm.fileHash == uc.fileHash)).isSome = true := by
      rw [huch, hfm']
      rfl
    rcases List.mem_append.mp hm2 with h1 | h1
    · have hmem2 : ucx ∈ s.userContents := by
        rw [hdec]
        exact List.mem_append_left _ h1
      exact hI2 ucx hmem2 hst
    · rcases List.mem_cons.mp h1 with h2 | h2
      · rw [h2]
        exact hgoal
      · have hmem2 : ucx ∈ s.userContents := by
          rw [hdec]
          exact List.mem_append_right _ (List.mem_cons_of_mem _ h2)
        exact hI2 ucx hmem2 hst
  · intro b hm
    rw [hmapfind b.1, isSome_map_opt]
    exact hI3 b hm
  · intro fmx hmx
    obtain ⟨a, hamem, heq⟩ := List.mem_map.mp hmx
    have hxh : fmx.fileHash = a.fileHash := by
      by_cases hc2 : (a.fileHash == fileHash) = true
      · rw [if_pos hc2] at heq
        rw [← heq]
      · rw [if_neg hc2] at heq
        rw [← heq]
    rw [hxh]
    exact hI4 a hamem
  · rw [List.pairwise_map]
    refine hI5.imp ?_
    intro a b hab
    have ga : (if a.fileHash == fileHash
        then { a with refCount := a.refCount + 1 } else a).fileHash = a.fileHash := by
      split <;> rfl
    have gb : (if b.fileHash == fileHash
        then { b with refCount := b.refCount + 1 } else b).fileHash = b.fileHash := by
      split <;> rfl
    rw [ga, gb]
    exact hab
  · exact hI6a
  · exact hI6b
  · exact hI6c
  · exact hI6d
  · rw [hMap]
    rw [hdec] at hI7a
    exact pairwise_update_middle _ l1 l2 uc _ hI7a (fun a h => h) (fun a h => h)
  · rw [hMap]
    rw [hdec] at hI7b
    exact pairwise_update_middle _ l1 l2 uc _ hI7b (fun a h => h) (fun a h => h)
  · intro ucx hm
    have hm2 : ucx ∈ l1 ++ { uc with status := 1, fileName := fileName } :: l2 := hMap ▸ hm
    rcases List.mem_append.mp hm2 with h1 | h1
    · have hmem2 : ucx ∈ s.userContents := by
        rw [hdec]
        exact List.mem_append_left _ h1
      exact hI7c ucx hmem2
    · rcases List.mem_cons.mp h1 with h2 | h2
      · rw [h2]
        exact hI7c uc hmemuc
      · have hmem2 : ucx ∈ s.userContents := by
          rw [hdec]
          exact List.mem_append_right _ (List.mem_cons_of_mem _ h2)
        exact hI7c ucx hmem2
  · intro ucx hm
    have hm2 : ucx ∈ l1 ++ { uc with status := 1, fileName := fileName } :: l2 := hMap ▸ hm
    rcases List.mem_append.mp hm2 with h1 | h1
    · have hmem2 : ucx ∈ s.userContents := by
        rw [hdec]
        exact List.mem_append_left _ h1
      exact hI8 ucx hmem2
    · rcases List.mem_cons.mp h1 with h2 | h2
      · rw [h2]
        exact Or.inr rfl
      · have hmem2 : ucx ∈ s.userContents := by
          rw [hdec]
          exact List.mem_append_right _ (List.mem_cons_of_mem _ h2)
        exact hI8 ucx hmem2
  · intro ts hm
    rcases List.mem_append.mp hm with hold | hnew
    · have hmt := (List.mem_filter.mp hold).1
      obtain ⟨ha, hb, hc, uct, hmemt, hut, hht, hstt⟩ := hI9 ts hmt
      refine ⟨ha, hb, hc, uct, ?_, hut, hht, hstt⟩
      rw [hMap]
      have hm2 : uct ∈ l1 ++ uc :: l2 := hdec ▸ hmemt
      rcases List.mem_append.mp hm2 with h1 | h1
      · exact List.mem_append_left _ h1
      · rcases List.mem_cons.mp h1 with h2 | h2
        · exfalso
          rw [h2, hust0] at hstt
          exact absurd hstt (by decide)
        · exact List.mem_append_right _ (List.mem_cons_of_mem _ h2)
    · have hts := List.mem_singleton.mp hnew
      rw [hts]
      refine ⟨rfl, ?_, ?_, ?_⟩
      · have hx := hI4 fm0 hmemf
        rw [hhf] at hx
        exact hx
      · show 1 ≤ cid
        rw [hcideq]
        exact (hI6c ct hctmem).1
      · refine ⟨{ uc with status := 1, fileName := fileName }, ?_, ?_, ?_, ?_⟩
        · rw [hMap]
          exact List.mem_append_right _ (List.mem_cons_self _ _)
        · show uc.userId = u
          exact huuid
        · show uc.fileHash = fileHash
          exact huch
        · rfl

theorem find?_append_singleton_isSome {α : Type} (p : α → Bool) (l : List α) (x : α)
    (hx : p x = true) : ((l ++ [x]).find? p).isSome = true :=
  List.find?_isSome.mpr ⟨x, List.mem_append_right _ (List.mem_cons_self x []), hx⟩

theorem find?_append_isSome_left {α : Type} (p : α → Bool) (l1 l2 : List α)
    (h : (l1.find? p).isSome = true) : ((l1 ++ l2).find? p).isSome = true := by
  obtain ⟨a, ham, hap⟩ := List.find?_isSome.mp h
  exact List.find?_isSome.mpr ⟨a, List.mem_append_left _ ham, hap⟩

theorem inv_step_merge (u : Int) (cid : Nat) (fileName fileHash : String)
    (totalChunks fileSize : Int) (s : SysState)
    (hinv : Inv s) (hwf : wfOp s (Op.opMerge u cid fileName fileHash totalChunks fileSize) = true) :
    Inv (MergeChunks u cid fileName fileHash totalChunks fileSize s).1 := by
  have hinv0 := hinv
  obtain ⟨hI1, hI2, hI3, hI4, hI5, ⟨hI6a, hI6b, hI6c, hI6d⟩, ⟨hI7a, hI7b, hI7c⟩, hI8, hI9⟩ := hinv
  have hwfm : (match findContentByOwnerHash s fileHash u with
      | some ct => cid == ct.id &&
          (match findUserContent s u ct.id with
           | some uc => !(uc.status == 1)
           | none => false)
      | none => false) = true := hwf
  clear hwf
  cases hct : findContentByOwnerHash s fileHash u with
  | none =>
    rw [hct] at hwfm
    exact absurd hwfm (by simp)
  | some ct =>
  simp only [hct] at hwfm
  rw [Bool.and_eq_true] at hwfm
  obtain ⟨hcidb, hwfb⟩ := hwfm
  have hcideq : cid = ct.id := beq_iff_eq.mp hcidb
  cases hu : findUserContent s u ct.id with
  | none =>
    simp only [hu] at hwfb
    exact absurd hwfb (by simp)
  | some uc =>
  simp only [hu] at hwfb
  have hucne1 : (uc.status == 1) = false := by
    simp only [Bool.not_eq_eq_eq_not, Bool.not_true] at hwfb
    exact hwfb
  have hct' := hct
  unfold findContentByOwnerHash at hct'
  have hctmem : ct ∈ s.contents := List.mem_of_find?_eq_some hct'
  have hctpred := @List.find?_some _
    (fun c => c.sourceHash == fileHash && c.ownerId == u) ct s.contents hct'
  rw [Bool.and_eq_true, beq_iff_eq, beq_iff_eq] at hctpred
  obtain ⟨hcthash, hctown⟩ := hctpred
  have hu' := hu
  unfold findUserContent at hu'
  have hmemuc : uc ∈ s.userContents := List.mem_of_find?_eq_some hu'
  have hupred := @List.find?_some _
    (fun r => r.userId == u && r.contentId == ct.id) uc s.userContents hu'
  rw [Bool.and_eq_true, beq_iff_eq, beq_iff_eq] at hupred
  obtain ⟨huuid, hucid⟩ := hupred
  have hust0 : uc.status = 0 := by
    rcases hI8 uc hmemuc with h0 | h1
    · exact h0
    · rw [h1] at hucne1
      exact absurd hucne1 (by simp)
  have hq0 : (uc.userId == u && uc.contentId == cid) = true := by
    rw [Bool.and_eq_true, beq_iff_eq, beq_iff_eq]
    exact ⟨huuid, by rw [hucid, hcideq]⟩
  have hqpw : List.Pairwise (fun a b : UserContentRow =>
      ¬((a.userId == u && a.contentId == cid) = true ∧
        (b.userId == u && b.contentId == cid) = true)) s.userContents := by
    refine hI7b.imp ?_
    intro a b hab hq
    obtain ⟨hqa, hqb⟩ := hq
    rw [Bool.and_eq_true, beq_iff_eq, beq_iff_eq] at hqa hqb
    exact hab ⟨by rw [hqa.1, hqb.1], by rw [hqa.2, hqb.2]⟩
  obtain ⟨l1, l2, hdec, hl1, hl2⟩ :=
    decomp_by_key (fun r => r.userId == u && r.contentId == cid) s.userContents uc hmemuc
      hq0 hqpw
  have hMap : s.userContents.map
      (fun r => if r.userId == u && r.contentId == cid
        then { r with status := 1, fileHash := fileHash } else r)
      = l1 ++ { uc with status := 1, fileHash := fileHash } :: l2 := by
    rw [hdec]
    exact map_update_decomp _ _ l1 l2 uc hl1 hl2 hq0
  have hcnt_ne : ∀ h2 : String, h2 ≠ fileHash →
      (l1 ++ { uc with status := 1, fileHash := fileHash } :: l2).countP
        (fun r => r.fileHash == h2 && r.status == 1)
      = completedCount s h2 := by
    intro h2 hne
    have hcc : completedCount s h2 =
        (l1 ++ uc :: l2).countP (fun r => r.fileHash == h2 && r.status == 1) := by
      unfold completedCount
      rw [hdec]
    have hp1 : (({ uc with status := 1, fileHash := fileHash } : UserContentRow).fileHash == h2
        && ({ uc with status := 1, fileHash := fileHash } : UserContentRow).status == 1)
        = false := by
      show (fileHash == h2 && ((1 : Int) == 1)) = false
      rw [(beq_eq_false_iff_ne).mpr (fun he => hne he.symm), Bool.false_and]
    have hp0 : (uc.fileHash == h2 && uc.status == 1) = false := by
      have hx : (uc.status == 1) = false := by
        rw [hust0]
        rfl
      rw [hx, Bool.and_false]
    rw [hcc, List.countP_append, List.countP_append, List.countP_cons, List.countP_cons]
    simp only [hp1, hp0, Bool.false_eq_true, if_false]
  have hcnt_at :
      (l1 ++ { uc with status := 1, fileHash := fileHash } :: l2).countP
        (fun r => r.fileHash == fileHash && r.status == 1)
      = completedCount s fileHash + 1 := by
    have hcc : completedCount s fileHash =
        (l1 ++ uc :: l2).countP (fun r => r.fileHash == fileHash && r.status == 1) := by
      unfold completedCount
      rw [hdec]
    have hp1 : (({ uc with status := 1, fileHash := fileHash } : UserContentRow).fileHash == fileHash
        && ({ uc with status := 1, fileHash := fileHash } : UserContentRow).status == 1)
        = true := by
      show (fileHash == fileHash && ((1 : Int) == 1)) = true
      simp
    have hp0 : (uc.fileHash == fileHash && uc.status == 1) = false := by
      have hx : (uc.status == 1) = false := by
        rw [hust0]
        rfl
      rw [hx, Bool.and_false]
    rw [hcc, List.countP_append, List.countP_append, List.countP_cons, List.countP_cons]
    simp only [hp1, hp0, Bool.false_eq_true, if_false, if_true]
    omega
  unfold MergeChunks
  dsimp only
  split
  · exact hinv0
  · cases hsm : StoreMergeChunks u fileHash totalChunks s with
    | error i =>
      simp only [hsm]
      exact hinv0
    | ok trip =>
      obtain ⟨s1, fp, sz⟩ := trip
      have hsm2 := hsm
      unfold StoreMergeChunks CleanupChunks at hsm2
      cases hcol : collectChunks s u fileHash totalChunks.toNat with
      | error i =>
        simp only [hcol] at hsm2
        exact absurd hsm2 (by simp)
      | ok bytes =>
        simp only [hcol] at hsm2
        have h3 := Except.ok.inj hsm2
        rw [Prod.mk.injEq, Prod.mk.injEq] at h3
        obtain ⟨h31, h32, h33⟩ := h3
        subst h31
        subst h32
        subst h33
        simp only [hsm]
        unfold FinishMergeAndCreateMeta ClearUploadedChunks CreateTombstone eraseTombstone
        simp only [findFileMeta]
        have hFE : ∀ h2 : String, (h2 = fileHash ∨ FileExists s h2 = true) →
            ((((s.blobs.filter (fun b => !(b.1 == fileHash))) ++ [(fileHash, bytes)]).find?
              (fun b => b.1 == h2)).isSome = true) := by
          intro h2 hc
          by_cases he : h2 = fileHash
          · refine find?_append_singleton_isSome _ _ _ ?_
            show (fileHash == h2) = true
            rw [he]
            exact beq_self_eq_true _
          · rcases hc with hc | hc
            · exact absurd hc he
            · obtain ⟨b, hbm, hbp⟩ := List.find?_isSome.mp hc
              refine List.find?_isSome.mpr
                ⟨b, List.mem_append_left _ (List.mem_filter.mpr ⟨hbm, ?_⟩), hbp⟩
              have hx : (b.1 == fileHash) = false := by
                rw [beq_eq_false_iff_ne]
                rw [beq_iff_eq] at hbp
                rw [hbp]
                exact he
              rw [hx]
              rfl
        cases hmeta : s.fileMetas.find? (fun fm => fm.fileHash == fileHash) with
        | none =>
          have hno2 : ∀ x ∈ s.fileMetas, (x.fileHash == fileHash) = false := by
            intro x hx
            cases hb : (x.fileHash == fileHash) with
            | false => rfl
            | true => exact absurd hb (List.find?_eq_none.mp hmeta x hx)
          have hcount0 : completedCount s fileHash = 0 := by
            unfold completedCount
            rw [List.countP_eq_zero]
            intro r hr hp
            rw [Bool.and_eq_true, beq_iff_eq] at hp
            have h2 := hI2 r hr (beq_iff_eq.mp hp.2)
            rw [hp.1] at h2
            unfold findFileMeta at h2
            rw [hmeta] at h2
            exact absurd h2 (by simp)
          simp only [hmeta]
          refine inv_build _ _ _ _ _ _ _ _ _ ?_ ?_ ?_ ?_ ?_ ?_ ?_ ?_ ?_ ?_ ?_ ?_ ?_ ?_
          · intro fmx hmx
            rw [hMap]
            rcases List.mem_append.mp hmx with hmo | hmn
            · obtain ⟨ha, hb, hc⟩ := hI1 fmx hmo
              have hnex : fmx.fileHash ≠ fileHash := by
                intro he
                have hz := hno2 fmx hmo
                rw [he, beq_self_eq_true] at hz
                exact absurd hz (by simp)
              refine ⟨?_, hb, hc⟩
              rw [hcnt_ne fmx.fileHash hnex]
              exact ha
            · have hmn2 := List.mem_singleton.mp hmn
              have hxh : fmx.fileHash = fileHash := by rw [hmn2]
              have hxrc : fmx.refCount = 1 := by rw [hmn2]
              have hxpath : fmx.filePath = getFilePath fileHash := by rw [hmn2]
              refine ⟨?_, ?_, ?_⟩
              · rw [hxrc, hxh, hcnt_at, hcount0]
                decide
              · rw [hxrc]
              · rw [hxpath, hxh]
          · intro ucx hm hst
            have hm2 : ucx ∈ l1 ++ { uc with status := 1, fileHash := fileHash } :: l2 :=
              hMap ▸ hm
            rcases List.mem_append.mp hm2 with h1 | h1
            · have hmem2 : ucx ∈ s.userContents := by
                rw [hdec]
                exact List.mem_append_left _ h1
              exact find?_append_isSome_left _ _ _ (hI2 ucx hmem2 hst)
            · rcases List.mem_cons.mp h1 with h2 | h2
              · rw [h2]
                exact find?_append_singleton_isSome _ _ _ (beq_self_eq_true fileHash)
              · have hmem2 : ucx ∈ s.userContents := by
                  rw [hdec]
                  exact List.mem_append_right _ (List.mem_cons_of_mem _ h2)
                exact find?_append_isSome_left _ _ _ (hI2 ucx hmem2 hst)
          · intro b hm
            rcases List.mem_append.mp hm with hbo | hbn
            · have hbm := (List.mem_filter.mp hbo).1
              exact find?_append_isSome_left _ _ _ (hI3 b hbm)
            · have hbn2 := List.mem_singleton.mp hbn
              rw [hbn2]
              exact find?_append_singleton_isSome _ _ _ (beq_self_eq_true fileHash)
          · intro fmx hmx
            rcases List.mem_append.mp hmx with hmo | hmn
            · exact hFE fmx.fileHash (Or.inr (hI4 fmx hmo))
            · have hmn2 := List.mem_singleton.mp hmn
              have hxh : fmx.fileHash = fileHash := by rw [hmn2]
              rw [hxh]
              exact hFE fileHash (Or.inl rfl)
          · rw [List.pairwise_append]
            refine ⟨hI5, List.pairwise_singleton _ _, ?_⟩
            intro a hma b hmb
            have hbn2 := List.mem_singleton.mp hmb
            have hbh : b.fileHash = fileHash := by rw [hbn2]
            rw [hbh]
            intro he
            have hz := hno2 a hma
            rw [he, beq_self_eq_true] at hz
            exact absurd hz (by simp)
          · exact hI6a
          · exact hI6b
          · exact hI6c
          · exact hI6d
          · rw [hMap]
            rw [hdec] at hI7a
            exact pairwise_update_middle _ l1 l2 uc _ hI7a (fun a h => h) (fun a h => h)
          · rw [hMap]
            rw [hdec] at hI7b
            exact pairwise_update_middle _ l1 l2 uc _ hI7b (fun a h => h) (fun a h => h)
          · intro ucx hm
            have hm2 : ucx ∈ l1 ++ { uc with status := 1, fileHash := fileHash } :: l2 :=
              hMap ▸ hm
            rcases List.mem_append.mp hm2 with h1 | h1
            · have hmem2 : ucx ∈ s.userContents := by
                rw [hdec]
                exact List.mem_append_left _ h1
              exact hI7c ucx hmem2
            · rcases List.mem_cons.mp h1 with h2 | h2
              · rw [h2]
                refine ⟨(hI7c uc hmemuc).1, ct, hctmem, ?_, ?_, ?_⟩
                · show ct.id = uc.contentId
                  rw [hucid]
                · show ct.ownerId = uc.userId
                  rw [hctown, huuid]
                · show ct.sourceHash = fileHash
                  exact hcthash
              · have hmem2 : ucx ∈ s.userContents := by
                  rw [hdec]
                  exact List.mem_append_right _ (List.mem_cons_of_mem _ h2)
                exact hI7c ucx hmem2
          · intro ucx hm
            have hm2 : ucx ∈ l1 ++ { uc with status := 1, fileHash := fileHash } :: l2 :=
              hMap ▸ hm
            rcases List.mem_append.mp hm2 with h1 | h1
            · have hmem2 : ucx ∈ s.userContents := by
                rw [hdec]
                exact List.mem_append_left _ h1
              exact hI8 ucx hmem2
            · rcases List.mem_cons.mp h1 with h2 | h2
              · rw [h2]
                exact Or.inr rfl
              · have hmem2 : ucx ∈ s.userContents := by
                  rw [hdec]
                  exact List.mem_append_right _ (List.mem_cons_of_mem _ h2)
                exact hI8 ucx hmem2
          · intro ts hm
            rcases List.mem_append.mp hm with hold | hnew
            · have hmt := (List.mem_filter.mp hold).1
              obtain ⟨ha, hb, hc, uct, hmemt, hut, hht, hstt⟩ := hI9 ts hmt
              refine ⟨ha, hFE ts.fileHash (Or.inr hb), hc, uct, ?_, hut, hht, hstt⟩
              rw [hMap]
              have hm2 : uct ∈ l1 ++ uc :: l2 := hdec ▸ hmemt
              rcases List.mem_append.mp hm2 with h1 | h1
              · exact List.mem_append_left _ h1
              · rcases List.mem_cons.mp h1 with h2 | h2
                · exfalso
                  rw [h2, hust0] at hstt
                  exact absurd hstt (by decide)
                · exact List.mem_append_right _ (List.mem_cons_of_mem _ h2)
            · have hts := List.mem_singleton.mp hnew
              rw [hts]
              refine ⟨rfl, hFE fileHash (Or.inl rfl), ?_, ?_⟩
              · show 1 ≤ cid
                rw [hcideq]
                exact (hI6c ct hctmem).1
              · refine ⟨{ uc with status := 1, fileHash := fileHash }, ?_, ?_, ?_, ?_⟩
                · rw [hMap]
                  exact List.mem_append_right _ (List.mem_cons_self _ _)
                · show uc.userId = u
                  exact huuid
                · rfl
                · rfl
        | some fm0 =>
          have hmemf : fm0 ∈ s.fileMetas := List.mem_of_find?_eq_some hmeta
          have hhf : fm0.fileHash = fileHash := by
            have hx := @List.find?_some _ (fun x => x.fileHash == fileHash) fm0 s.fileMetas hmeta
            rwa [beq_iff_eq] at hx
          obtain ⟨hrcA, hrcB, hpathA⟩ := hI1 fm0 hmemf
          rw [hhf] at hrcA
          have hpres : ∀ h2 : String, ∀ a ∈ s.fileMetas,
              ((if a.fileHash == fileHash
                then { a with refCount := a.refCount + 1 } else a).fileHash == h2)
                = (a.fileHash == h2) := by
            intro h2 a _
            by_cases hc : (a.fileHash == fileHash) = true
            · simp [hc]
            · simp [hc]
          have hmapfind : ∀ h2 : String,
              (s.fileMetas.map (fun fm => if fm.fileHash == fileHash
                  then { fm with refCount := fm.refCount + 1 } else fm)).find?
                (fun fm => fm.fileHash == h2)
              = (s.fileMetas.find? (fun fm => fm.fileHash == h2)).map
                  (fun fm => if fm.fileHash == fileHash
                    then { fm with refCount := fm.refCount + 1 } else fm) := by
            intro h2
            exact find?_map_pred _ _ _ (hpres h2)
          have hfmeq : findFileMeta s fileHash = some fm0 := hmeta
          simp only [hmeta]
          refine inv_build _ _ _ _ _ _ _ _ _ ?_ ?_ ?_ ?_ ?_ ?_ ?_ ?_ ?_ ?_ ?_ ?_ ?_ ?_
          · intro fmx hmx
            rw [hMap]
            obtain ⟨a, hamem, heq⟩ := List.mem_map.mp hmx
            by_cases hc2 : (a.fileHash == fileHash) = true
            · have haeq : a = fm0 :=
                meta_eq_found s hI5 fileHash fm0 a hfmeq hamem (beq_iff_eq.mp hc2)
              rw [if_pos hc2, haeq] at heq
              have hxh : fmx.fileHash = fm0.fileHash := by rw [← heq]
              have hxrc : fmx.refCount = fm0.refCount + 1 := by rw [← heq]
              have hxpath : fmx.filePath = fm0.filePath := by rw [← heq]
              refine ⟨?_, ?_, ?_⟩
              · rw [hxrc, hxh, hhf, hcnt_at]
                rw [intOfNat_eq_cast] at hrcA ⊢
                omega
              · rw [hxrc]
                omega
              · rw [hxpath, hxh]
                exact hpathA
            · rw [if_neg hc2] at heq
              obtain ⟨ha, hb, hcc2⟩ := hI1 a hamem
              have hanex : a.fileHash ≠ fileHash := fun he => hc2 ((beq_iff_eq).mpr he)
              rw [← heq]
              refine ⟨?_, hb, hcc2⟩
              rw [hcnt_ne a.fileHash hanex]
              exact ha
          · intro ucx hm hst
            rw [hmapfind ucx.fileHash, isSome_map_opt]
            have hm2 : ucx ∈ l1 ++ { uc with status := 1, fileHash := fileHash } :: l2 :=
              hMap ▸ hm
            rcases List.mem_append.mp hm2 with h1 | h1
            · have hmem2 : ucx ∈ s.userContents := by
                rw [hdec]
                exact List.mem_append_left _ h1
              exact hI2 ucx hmem2 hst
            · rcases List.mem_cons.mp h1 with h2 | h2
              · rw [h2]
                show (s.fileMetas.find? (fun fm => fm.fileHash == fileHash)).isSome = true
                rw [hmeta]
                rfl
              · have hmem2 : ucx ∈ s.userContents := by
                  rw [hdec]
                  exact List.mem_append_right _ (List.mem_cons_of_mem _ h2)
                exact hI2 ucx hmem2 hst
          · intro b hm
            rw [hmapfind b.1, isSome_map_opt]
            rcases List.mem_append.mp hm with hbo | hbn
            · exact hI3 b (List.mem_filter.mp hbo).1
            · have hbn2 := List.mem_singleton.mp hbn
              rw [hbn2]
              show (s.fileMetas.find? (fun fm => fm.fileHash == fileHash)).isSome = true
              rw [hmeta]
              rfl
          · intro fmx hmx
            obtain ⟨a, hamem, heq⟩ := List.mem_map.mp hmx
            by_cases hc2 : (a.fileHash == fileHash) = true
            · have hxh : fmx.fileHash = a.fileHash := by
                rw [if_pos hc2] at heq
                rw [← heq]
              rw [hxh, beq_iff_eq.mp hc2]
              exact hFE fileHash (Or.inl rfl)
            · have hxh : fmx.fileHash = a.fileHash := by
                rw [if_neg hc2] at heq
                rw [← heq]
              rw [hxh]
              exact hFE a.fileHash (Or.inr (hI4 a hamem))
          · rw [List.pairwise_map]
            refine hI5.imp ?_
            intro a b hab
            have ga : (if a.fileHash == fileHash
                then { a with refCount := a.refCount + 1 } else a).fileHash = a.fileHash := by
              split <;> rfl
            have gb : (if b.fileHash == fileHash
                then { b with refCount := b.refCount + 1 } else b).fileHash = b.fileHash := by
              split <;> rfl
            rw [ga, gb]
            exact hab
          · exact hI6a
          · exact hI6b
          · exact hI6c
          · exact hI6d
          · rw [hMap]
            rw [hdec] at hI7a
            exact pairwise_update_middle _ l1 l2 uc _ hI7a (fun a h => h) (fun a h => h)
          · rw [hMap]
            rw [hdec] at hI7b
            exact pairwise_update_middle _ l1 l2 uc _ hI7b (fun a h => h) (fun a h => h)
          · intro ucx hm
            have hm2 : ucx ∈ l1 ++ { uc with status := 1, fileHash := fileHash } :: l2 :=
              hMap ▸ hm
            rcases List.mem_append.mp hm2 with h1 | h1
            · have hmem2 : ucx ∈ s.userContents := by
                rw [hdec]
                exact List.mem_append_left _ h1
              exact hI7c ucx hmem2
            · rcases List.mem_cons.mp h1 with h2 | h2
              · rw [h2]
                refine ⟨(hI7c uc hmemuc).1, ct, hctmem, ?_, ?_, ?_⟩
                · show ct.id = uc.contentId
                  rw [hucid]
                · show ct.ownerId = uc.userId
                  rw [hctown, huuid]
                · show ct.sourceHash = fileHash
                  exact hcthash
              · have hmem2 : ucx ∈ s.userContents := by
                  rw [hdec]
                  exact List.mem_append_right _ (List.mem_cons_of_mem _ h2)
                exact hI7c ucx hmem2
          · intro ucx hm
            have hm2 : ucx ∈ l1 ++ { uc with status := 1, fileHash := fileHash } :: l2 :=
              hMap ▸ hm
            rcases List.mem_append.mp hm2 with h1 | h1
            · have hmem2 : ucx ∈ s.userContents := by
                rw [hdec]
                exact List.mem_append_left _ h1
              exact hI8 ucx hmem2
            · rcases List.mem_cons.mp h1 with h2 | h2
              · rw [h2]
                exact Or.inr rfl
              · have hmem2 : ucx ∈ s.userContents := by
                  rw [hdec]
                  exact List.mem_append_right _ (List.mem_cons_of_mem _ h2)
                exact hI8 ucx hmem2
          · intro ts hm
            rcases List.mem_append.mp hm with hold | hnew
            · have hmt := (List.mem_filter.mp hold).1
              obtain ⟨ha, hb, hc, uct, hmemt, hut, hht, hstt⟩ := hI9 ts hmt
              refine ⟨ha, hFE ts.fileHash (Or.inr hb), hc, uct, ?_, hut, hht, hstt⟩
              rw [hMap]
              have hm2 : uct ∈ l1 ++ uc :: l2 := hdec ▸ hmemt
              rcases List.mem_append.mp hm2 with h1 | h1
              · exact List.mem_append_left _ h1
              · rcases List.mem_cons.mp h1 with h2 | h2
                · exfalso
                  rw [h2, hust0] at hstt
                  exact absurd hstt (by decide)
                · exact List.mem_append_right _ (List.mem_cons_of_mem _ h2)
            · have hts := List.mem_singleton.mp hnew
              rw [hts]
              refine ⟨rfl, hFE fileHash (Or.inl rfl), ?_, ?_⟩
              · show 1 ≤ cid
                rw [hcideq]
                exact (hI6c ct hctmem).1
              · refine ⟨{ uc with status := 1, fileHash := fileHash }, ?_, ?_, ?_, ?_⟩
                · rw [hMap]
                  exact List.mem_append_right _ (List.mem_cons_self _ _)
                · show uc.userId = u
                  exact huuid
                · rfl
                · rfl

theorem countP_append_single_false {α : Type} (p : α → Bool) (l : List α) (x : α)
    (hx : p x = false) : (l ++ [x]).countP p = l.countP p := by
  rw [List.countP_append, List.countP_cons, List.countP_nil]
  simp [hx]

theorem inv_initUploadMain (u : Int) (fileName fileHash : String) (s : SysState)
    (hinv : Inv s)
    (hnoc : ∀ r ∈ s.userContents, r.userId = u → r.fileHash = fileHash → r.status ≠ 1) :
    Inv (initUploadMain u fileName fileHash s).1 := by
  have hinv0 := hinv
  have hcuniq := inv_content_byid_unique s hinv
  obtain ⟨hI1, hI2, hI3, hI4, hI5, ⟨hI6a, hI6b, hI6c, hI6d⟩, ⟨hI7a, hI7b, hI7c⟩, hI8, hI9⟩ := hinv
  unfold initUploadMain
  dsimp only
  unfold CreateOrUpdateUserFileUploading
  cases hct : findContentByOwnerHash s fileHash u with
  | some ct =>
    simp only [hct]
    have hct2 := hct
    unfold findContentByOwnerHash at hct2
    have hctmem : ct ∈ s.contents := List.mem_of_find?_eq_some hct2
    have hctpred := @List.find?_some _
      (fun c => c.sourceHash == fileHash && c.ownerId == u) ct s.contents hct2
    rw [Bool.and_eq_true, beq_iff_eq, beq_iff_eq] at hctpred
    obtain ⟨hcthash, hctown⟩ := hctpred
    cases hfu : findUserContent s u ct.id with
    | some ucr =>
      simp only [hfu]
      have hfu2 := hfu
      unfold findUserContent at hfu2
      have hmemu : ucr ∈ s.userContents := List.mem_of_find?_eq_some hfu2
      have hupred := @List.find?_some _
        (fun r => r.userId == u && r.contentId == ct.id) ucr s.userContents hfu2
      rw [Bool.and_eq_true, beq_iff_eq, beq_iff_eq] at hupred
      obtain ⟨huuid, hucid⟩ := hupred
      have huch : ucr.fileHash = fileHash := by
        obtain ⟨_, ct2, hct2mem, hct2id, hct2own, hct2hash⟩ := hI7c ucr hmemu
        have hctid2 : ct2.id = ct.id := by rw [hct2id, hucid]
        have hcteq : ct2 = ct := hcuniq ct2 hct2mem ct hctmem hctid2
        rw [hcteq] at hct2hash
        rw [← hct2hash]
        exact hcthash
      have hst0 : ucr.status = 0 := by
        rcases hI8 ucr hmemu with h0 | h1
        · exact h0
        · exact absurd h1 (hnoc ucr hmemu huuid huch)
      have hqpw : List.Pairwise (fun a b : UserContentRow =>
          ¬((a.id == ucr.id) = true ∧ (b.id == ucr.id) = true)) s.userContents := by
        refine hI7a.imp ?_
        intro a b hab hq
        obtain ⟨hqa, hqb⟩ := hq
        rw [beq_iff_eq] at hqa hqb
        rw [hqa, hqb] at hab
        exact hab rfl
      obtain ⟨l1, l2, hdec, hl1, hl2⟩ :=
        decomp_by_key (fun r => r.id == ucr.id) s.userContents ucr hmemu
          (beq_self_eq_true ucr.id) hqpw
      have heta : ({ ucr with status := 0 } : UserContentRow) = ucr := by
        rw [← hst0]
      have hMap : s.userContents.map
          (fun r => if r.id == ucr.id then { r with status := 0 } else r)
          = l1 ++ { ucr with status := 0 } :: l2 := by
        rw [hdec]
        exact map_update_decomp _ _ l1 l2 ucr hl1 hl2 (beq_self_eq_true ucr.id)
      have hMap2 : s.userContents.map
          (fun r => if r.id == ucr.id then { r with status := 0 } else r)
          = s.userContents := by
        rw [hMap, heta]
        exact hdec.symm
      rw [hMap2]
      exact hinv0
    | none =>
      simp only [hfu]
      have hfu2 := hfu
      unfold findUserContent at hfu2
      have hnofu : ∀ r ∈ s.userContents, (r.userId == u && r.contentId == ct.id) = false := by
        intro r hr
        cases hb : (r.userId == u && r.contentId == ct.id) with
        | false => rfl
        | true => exact absurd hb (List.find?_eq_none.mp hfu2 r hr)
      have hz : ((0 : Int) == 1) = false := by decide
      have hcnt2 : ∀ h2 : String, (s.userContents ++ [({ id := s.nextUserContentId, userId := u, contentId := ct.id, fileName := fileName, fileHash := fileHash, status := 0 } : UserContentRow)]).countP (fun r => r.fileHash == h2 && r.status == 1) = completedCount s h2 := by
        intro h2
        unfold completedCount
        rw [List.countP_append, List.countP_cons, List.countP_nil]
        simp only [hz, Bool.and_false, Bool.false_eq_true, if_false]
        omega
      refine inv_build _ _ _ _ _ _ _ _ _ ?_ ?_ ?_ ?_ ?_ ?_ ?_ ?_ ?_ ?_ ?_ ?_ ?_ ?_
      · intro fm hm
        obtain ⟨ha, hb, hc⟩ := hI1 fm hm
        refine ⟨?_, hb, hc⟩
        rw [hcnt2 fm.fileHash]
        exact ha
      · intro ucx hm hst
        rcases List.mem_append.mp hm with h1 | h1
        · exact hI2 ucx h1 hst
        · have h2 := List.mem_singleton.mp h1
          rw [h2] at hst
          have hst2 : (0 : Int) = 1 := hst
          exact absurd hst2 (by decide)
      · intro b hm
        exact hI3 b hm
      · intro fm hm
        exact hI4 fm hm
      · exact hI5
      · exact hI6a
      · exact hI6b
      · exact hI6c
      · exact hI6d
      · rw [List.pairwise_append]
        refine ⟨hI7a, List.pairwise_singleton _ _, ?_⟩
        intro a hma b hmb
        have hb2 := List.mem_singleton.mp hmb
        have hbid : b.id = s.nextUserContentId := by rw [hb2]
        rw [hbid]
        intro he
        have hlt := (hI7c a hma).1
        rw [he] at hlt
        exact absurd hlt (by omega)
      · rw [List.pairwise_append]
        refine ⟨hI7b, List.pairwise_singleton _ _, ?_⟩
        intro a hma b hmb hq
        obtain ⟨hq1, hq2⟩ := hq
        have hb2 := List.mem_singleton.mp hmb
        rw [hb2] at hq1 hq2
        have hx : (a.userId == u && a.contentId == ct.id) = true := by
          rw [Bool.and_eq_true, beq_iff_eq, beq_iff_eq]
          exact ⟨hq1, hq2⟩
        rw [hnofu a hma] at hx
        exact absurd hx (by simp)
      · intro ucx hm
        rcases List.mem_append.mp hm with h1 | h1
        · obtain ⟨hid, ct2, hct2mem, h3a, h3b, h3c⟩ := hI7c ucx h1
          exact ⟨by omega, ct2, hct2mem, h3a, h3b, h3c⟩
        · have h2 := List.mem_singleton.mp h1
          rw [h2]
          refine ⟨?_, ct, hctmem, ?_, ?_, ?_⟩
          · show s.nextUserContentId < s.nextUserContentId + 1
            omega
          · rfl
          · show ct.ownerId = u
            exact hctown
          · show ct.sourceHash = fileHash
            exact hcthash
      · intro ucx hm
        rcases List.mem_append.mp hm with h1 | h1
        · exact hI8 ucx h1
        · have h2 := List.mem_singleton.mp h1
          rw [h2]
          exact Or.inl rfl
      · intro ts hm
        obtain ⟨ha, hb, hc, uct, hmemt, hut, hht, hstt⟩ := hI9 ts hm
        exact ⟨ha, hb, hc, uct, List.mem_append_left _ hmemt, hut, hht, hstt⟩
  | none =>
    simp only [hct, findUserContent]
    have hct2 := hct
    unfold findContentByOwnerHash at hct2
    have hnoc2 : ∀ c ∈ s.contents, (c.sourceHash == fileHash && c.ownerId == u) = false := by
      intro c hc
      cases hb : (c.sourceHash == fileHash && c.ownerId == u) with
      | false => rfl
      | true => exact absurd hb (List.find?_eq_none.mp hct2 c hc)
    have hnofu : s.userContents.find?
        (fun r => r.userId == u && r.contentId == s.nextContentId) = none := by
      rw [List.find?_eq_none]
      intro r hr hp
      rw [Bool.and_eq_true, beq_iff_eq, beq_iff_eq] at hp
      obtain ⟨_, ct2, hct2mem, hct2id, _, _⟩ := hI7c r hr
      have hlt := (hI6c ct2 hct2mem).2
      rw [hct2id, hp.2] at hlt
      exact absurd hlt (by omega)
    simp only [hnofu]
    have hz : ((0 : Int) == 1) = false := by decide
    have hcnt3 : ∀ h2 : String, (s.userContents ++ [({ id := s.nextUserContentId, userId := u, contentId := s.nextContentId, fileName := fileName, fileHash := fileHash, status := 0 } : UserContentRow)]).countP (fun r => r.fileHash == h2 && r.status == 1) = completedCount s h2 := by
      intro h2
      unfold completedCount
      rw [List.countP_append, List.countP_cons, List.countP_nil]
      simp only [hz, Bool.and_false, Bool.false_eq_true, if_false]
      omega
    refine inv_build _ _ _ _ _ _ _ _ _ ?_ ?_ ?_ ?_ ?_ ?_ ?_ ?_ ?_ ?_ ?_ ?_ ?_ ?_
    · intro fm hm
      obtain ⟨ha, hb, hc⟩ := hI1 fm hm
      refine ⟨?_, hb, hc⟩
      rw [hcnt3 fm.fileHash]
      exact ha
    · intro ucx hm hst
      rcases List.mem_append.mp hm with h1 | h1
      · exact hI2 ucx h1 hst
      · have h2 := List.mem_singleton.mp h1
        rw [h2] at hst
        have hst2 : (0 : Int) = 1 := hst
        exact absurd hst2 (by decide)
    · intro b hm
      exact hI3 b hm
    · intro fm hm
      exact hI4 fm hm
    · exact hI5
    · rw [List.pairwise_append]
      refine ⟨hI6a, List.pairwise_singleton _ _, ?_⟩
      intro a hma b hmb
      have hb2 := List.mem_singleton.mp hmb
      have hbid : b.id = s.nextContentId := by rw [hb2]
      rw [hbid]
      intro he
      have hlt := (hI6c a hma).2
      rw [he] at hlt
      exact absurd hlt (by omega)
    · rw [List.pairwise_append]
      refine ⟨hI6b, List.pairwise_singleton _ _, ?_⟩
      intro a hma b hmb hq
      obtain ⟨hq1, hq2⟩ := hq
      have hb2 := List.mem_singleton.mp hmb
      rw [hb2] at hq1 hq2
      have hx : (a.sourceHash == fileHash && a.ownerId == u) = true := by
        rw [Bool.and_eq_true, beq_iff_eq, beq_iff_eq]
        exact ⟨hq2, hq1⟩
      rw [hnoc2 a hma] at hx
      exact absurd hx (by simp)
    · intro ctx hm
      rcases List.mem_append.mp hm with h1 | h1
      · obtain ⟨h1a, h1b⟩ := hI6c ctx h1
        exact ⟨h1a, by omega⟩
      · have h2 := List.mem_singleton.mp h1
        rw [h2]
        refine ⟨?_, ?_⟩
        · show 1 ≤ s.nextContentId
          exact hI6d
        · show s.nextContentId < s.nextContentId + 1
          omega
    · show 1 ≤ s.nextContentId + 1
      omega
    · rw [List.pairwise_append]
      refine ⟨hI7a, List.pairwise_singleton _ _, ?_⟩
      intro a hma b hmb
      have hb2 := List.mem_singleton.mp hmb
      have hbid : b.id = s.nextUserContentId := by rw [hb2]
      rw [hbid]
      intro he
      have hlt := (hI7c a hma).1
      rw [he] at hlt
      exact absurd hlt (by omega)
    · rw [List.pairwise_append]
      refine ⟨hI7b, List.pairwise_singleton _ _, ?_⟩
      intro a hma b hmb hq
      obtain ⟨hq1, hq2⟩ := hq
      have hb2 := List.mem_singleton.mp hmb
      rw [hb2] at hq2
      have hq3 : a.contentId = s.nextContentId := hq2
      obtain ⟨_, ct2, hct2mem, hct2id, _, _⟩ := hI7c a hma
      have hlt := (hI6c ct2 hct2mem).2
      rw [hct2id, hq3] at hlt
      exact absurd hlt (by omega)
    · intro ucx hm
      rcases List.mem_append.mp hm with h1 | h1
      · obtain ⟨hid, ct2, hm2, h3a, h3b, h3c⟩ := hI7c ucx h1
        exact ⟨by omega, ct2, List.mem_append_left _ hm2, h3a, h3b, h3c⟩
      · have h2 := List.mem_singleton.mp h1
        rw [h2]
        refine ⟨?_, ?_⟩
        · show s.nextUserContentId < s.nextUserContentId + 1
          omega
        · refine ⟨_, List.mem_append_right _ (List.mem_cons_self _ []), rfl, rfl, rfl⟩
    · intro ucx hm
      rcases List.mem_append.mp hm with h1 | h1
      · exact hI8 ucx h1
      · have h2 := List.mem_singleton.mp h1
        rw [h2]
        exact Or.inl rfl
    · intro ts hm
      obtain ⟨ha, hb, hc, uct, hmemt, hut, hht, hstt⟩ := hI9 ts hm
      exact ⟨ha, hb, hc, uct, List.mem_append_left _ hmemt, hut, hht, hstt⟩

theorem inv_step_init (u : Int) (fileName fileHash : String) (s : SysState)
    (hinv : Inv s) :
    Inv (InitUpload u fileName fileHash s).1 := by
  have hinv0 := hinv
  have huniq := inv_uc_byhash_unique s hinv
  obtain ⟨hI1, hI2, hI3, hI4, hI5, ⟨hI6a, hI6b, hI6c, hI6d⟩, ⟨hI7a, hI7b, hI7c⟩, hI8, hI9⟩ := hinv
  unfold InitUpload
  cases hts : findTombstone s u fileHash with
  | some ts =>
    simp only [hts]
    have hts2 := hts
    unfold findTombstone at hts2
    have htsmem : ts ∈ s.tombstones := List.mem_of_find?_eq_some hts2
    have htspred := @List.find?_some _
      (fun t => t.userId == u && t.fileHash == fileHash) ts s.tombstones hts2
    rw [Bool.and_eq_true, beq_iff_eq, beq_iff_eq] at htspred
    obtain ⟨htsu, htsh⟩ := htspred
    obtain ⟨hstat, hfe, hcid1, _⟩ := hI9 ts htsmem
    have hc1 : (ts.status == "completed") = true := by
      rw [hstat]
      exact beq_self_eq_true _
    rw [if_pos hc1]
    unfold GetTombstoneContentID
    simp only [hts, Option.map_some']
    rw [if_pos (show 0 < ts.contentId from hcid1)]
    have hfe2 : FileExists s fileHash = true := by
      rw [← htsh]
      exact hfe
    rw [if_pos hfe2]
    exact hinv0
  | none =>
    simp only [hts]
    cases hub : findUserContentByHash s u fileHash with
    | none =>
      simp only [hub]
      refine inv_initUploadMain u fileName fileHash s hinv0 ?_
      intro r hr hru hrh
      have hub2 := hub
      unfold findUserContentByHash at hub2
      have hn := List.find?_eq_none.mp hub2 r hr
      exact absurd (by rw [Bool.and_eq_true, beq_iff_eq, beq_iff_eq]; exact ⟨hru, hrh⟩) hn
    | some uc0 =>
      simp only [hub]
      have hub2 := hub
      unfold findUserContentByHash at hub2
      have hmemu : uc0 ∈ s.userContents := List.mem_of_find?_eq_some hub2
      have hupred := @List.find?_some _
        (fun r => r.userId == u && r.fileHash == fileHash) uc0 s.userContents hub2
      rw [Bool.and_eq_true, beq_iff_eq, beq_iff_eq] at hupred
      obtain ⟨huuid, huch⟩ := hupred
      cases hs1 : (uc0.status == 1) with
      | false =>
        simp only [hs1, Bool.false_eq_true, if_false]
        refine inv_initUploadMain u fileName fileHash s hinv0 ?_
        intro r hr hru hrh
        have hreq : r = uc0 := huniq r hr uc0 hmemu (by rw [hru, huuid]) (by rw [hrh, huch])
        rw [hreq]
        intro h1
        rw [h1] at hs1
        exact absurd hs1 (by simp)
      | true =>
        simp only [hs1, if_true]
        have hst1 : uc0.status = 1 := beq_iff_eq.mp hs1
        have hmetaS := hI2 uc0 hmemu hst1
        rw [huch] at hmetaS
        cases hfm : findFileMeta s fileHash with
        | none =>
          rw [hfm] at hmetaS
          exact absurd hmetaS (by simp)
        | some fm0 =>
          simp only [hfm]
          have hfm2 := hfm
          unfold findFileMeta at hfm2
          have hmemf : fm0 ∈ s.fileMetas := List.mem_of_find?_eq_some hfm2
          have hhf : fm0.fileHash = fileHash := by
            have hx := @List.find?_some _ (fun x => x.fileHash == fileHash) fm0 s.fileMetas hfm2
            rwa [beq_iff_eq] at hx
          obtain ⟨_, _, hpathA⟩ := hI1 fm0 hmemf
          have hpne : (fm0.filePath == "") = false := by
            rw [hpathA]
            exact getFilePath_ne_empty _
          simp only [hpne, Bool.false_eq_true, if_false]
          have hfe : FileExists s fileHash = true := by
            have hx := hI4 fm0 hmemf
            rwa [hhf] at hx
          rw [if_pos hfe]
          unfold CreateTombstoneNoExpire eraseTombstone
          simp only [hts]
          refine inv_build _ _ _ _ _ _ _ _ _ ?_ ?_ ?_ ?_ ?_ ?_ ?_ ?_ ?_ ?_ ?_ ?_ ?_ ?_
          · intro fm hm
            exact hI1 fm hm
          · intro ucx hm hst
            exact hI2 ucx hm hst
          · intro b hm
            exact hI3 b hm
          · intro fm hm
            exact hI4 fm hm
          · exact hI5
          · exact hI6a
          · exact hI6b
          · exact hI6c
          · exact hI6d
          · exact hI7a
          · exact hI7b
          · intro ucx hm
            exact hI7c ucx hm
          · intro ucx hm
            exact hI8 ucx hm
          · intro ts2 hm
            rcases List.mem_append.mp hm with hold | hnew
            · exact hI9 ts2 (List.mem_filter.mp hold).1
            · have h2 := List.mem_singleton.mp hnew
              rw [h2]
              refine ⟨rfl, hfe, ?_, ?_⟩
              · obtain ⟨_, ct2, hct2mem, hct2id, _, _⟩ := hI7c uc0 hmemu
                have h1le := (hI6c ct2 hct2mem).1
                rw [hct2id] at h1le
                exact h1le
              · exact ⟨uc0, hmemu, huuid, huch, hst1⟩

theorem inv_runOps (ops : List Op) : ∀ s : SysState,
    Inv s → wfTrace s ops = true → Inv (runOps s ops) := by
  induction ops with
  | nil =>
    intro s hinv _
    exact hinv
  | cons op rest ih =>
    intro s hinv hwf
    unfold wfTrace at hwf
    rw [Bool.and_eq_true] at hwf
    obtain ⟨hwf1, hwf2⟩ := hwf
    unfold runOps
    refine ih (step s op) ?_ hwf2
    cases op with
    | opInit u fileName fileHash =>
      exact inv_step_init u fileName fileHash s hinv
    | opChunk u fileHash cid index total data =>
      exact inv_step_chunk u fileHash cid index total data s hinv
    | opMerge u cid fileName fileHash total fsz =>
      exact inv_step_merge u cid fileName fileHash total fsz s hinv hwf1
    | opFast u cid fileName fileHash =>
      exact inv_step_fast u cid fileName fileHash s hinv hwf1
    | opDelete u fileHash =>
      exact inv_step_delete u fileHash s hinv hwf1

/-- C1 (amended).  For every well-formed sequence of init, chunk-upload,
merge, fastUpload and delete operations from the empty initial state —
well-formed meaning merge and fastUpload pass the content id that init
created for the (user, hash) pair while the matching user_contents row is
not yet COMPLETED, fastUpload runs only when a file_metas row for the
hash exists, and delete runs only when the own row of the caller for the
hash is COMPLETED whenever a file_metas row exists — at quiescence, for
every hash, FileMeta(h).refCount equals the number of COMPLETED
user_contents rows carrying h and the blob for h exists iff that count is
positive. -/
theorem dedup_refcount_invariant (ops : List Op) (fileHash : String)
    (hwf : wfTrace initState ops = true) :
    dedupInvariant (runOps initState ops) fileHash :=
  inv_implies_dedup _ (inv_runOps ops initState inv_initState hwf) fileHash

/-- C1 witness: a well-formed two-user trace (user 1 uploads hash "h" in
three chunks and merges, user 2 dedups onto the same hash with a
single-chunk merge, then user 1 deletes) satisfies the dedup refcount
property at hash "h". -/
theorem dedup_refcount_invariant_witness :
    wfTrace initState wTrace = true ∧
    dedupInvariant (runOps initState wTrace) "h" :=
  ⟨by decide, dedup_refcount_invariant wTrace "h" (by decide)⟩

end VideoPlatform
